import Mathlib

/-!
# Xiphos board utility layer: digital I/O lines, button and board initialisation

A shallow embedding of `XiphosLibrary/utility.c`.

Conventions of the embedding:

* every hardware register is a `Nat`; each store into an 8-bit register is
  truncated with `% 256`, each conversion to `u16` with `% 65536`;
* `int` is the 16-bit integer of the AVR target, so the value `1 << b` is taken
  `% 65536`;
* a C procedure that mutates registers becomes a function `State → ... → State`;
* bit `k` of a register value `r` is `r.testBit k`.
-/

namespace Xiphos

/-! ## Data model -/

/-- Modelled from the spec: the `Direction` enumeration of `globals.h` (not part
of the sources at hand), "an enumerated value over {INPUT, INPUT_PULLUP, OUTPUT}". -/
inductive Direction where
  | INPUT
  | INPUT_PULLUP
  | OUTPUT
  deriving DecidableEq, Repr

/-- The memory-mapped registers of the two register groups behind the ten
digital lines. `DDRx` holds directions, `PORTx` pull-up / drive bits and `PINx`
the levels present on the pins. Registers are 8 bits wide on the hardware. -/
@[ext]
structure State where
  DDRA : Nat := 0
  DDRB : Nat := 0
  PORTA : Nat := 0
  PORTB : Nat := 0
  PINA : Nat := 0
  PINB : Nat := 0
  deriving DecidableEq, Repr

/-! ## Bit macros -/

/-- Modelled from the spec: macro `sbi(a, b)` of `globals.h` (not part of the
sources at hand), the "setting ... specific bits" primitive: `a |= 1 << b` on an
8-bit register. -/
def sbi (a b : Nat) : Nat := (a ||| ((1 <<< b) % 65536)) % 256

/-- Modelled from the spec: macro `cbi(a, b)` of `globals.h` (not part of the
sources at hand), the "clearing specific bits" primitive: `a &= ~(1 << b)` on an
8-bit register; `~` is the complement of a 16-bit `int`. -/
def cbi (a b : Nat) : Nat := (a &&& (65535 ^^^ ((1 <<< b) % 65536))) % 256

/-- Modelled from the spec: macro `gbi(a, b)` of `globals.h` (not part of the
sources at hand): the masked bit `a & (1 << b)`, zero exactly when bit `b` of
`a` is clear. -/
def gbi (a b : Nat) : Nat := a &&& ((1 <<< b) % 65536)

/-- Modelled from the spec: macro `gbis(a, b)` of `globals.h` (not part of the
sources at hand): the masked bit shifted down to the least significant
position, `gbi(a, b) >> b`. -/
def gbis (a b : Nat) : Nat := gbi a b >>> b

/-- Modelled from the spec: bit number `PB4` of `avr/io.h`, "lines 0 and 1 live
in one register group at bit positions 4 and 7 respectively". -/
def PB4 : Nat := 4

/-- Modelled from the spec: bit number `PB7` of `avr/io.h`, "lines 0 and 1 live
in one register group at bit positions 4 and 7 respectively". -/
def PB7 : Nat := 7

/-! ## Operations of `utility.c` -/

/-- Procedure `void digitalDirection(u08 num, Direction direction)`. -/
def digitalDirection (s : State) (num : Nat) (direction : Direction) : State :=
  if num > 1 then
    let num := (num - 2) % 256
    match direction with
    | .INPUT =>
      let s := { s with DDRA := cbi s.DDRA num }
      { s with PORTA := cbi s.PORTA num }
    | .INPUT_PULLUP =>
      let s := { s with DDRA := cbi s.DDRA num }
      { s with PORTA := sbi s.PORTA num }
    | .OUTPUT =>
      { s with DDRA := sbi s.DDRA num }
  else if num = 1 then
    match direction with
    | .INPUT =>
      let s := { s with DDRB := cbi s.DDRB 7 }
      { s with PORTB := cbi s.PORTB 7 }
    | .INPUT_PULLUP =>
      let s := { s with DDRB := cbi s.DDRB 7 }
      { s with PORTB := sbi s.PORTB 7 }
    | .OUTPUT =>
      { s with DDRB := sbi s.DDRB 7 }
  else if num = 0 then
    match direction with
    | .INPUT =>
      let s := { s with DDRB := cbi s.DDRB 4 }
      { s with PORTB := cbi s.PORTB 4 }
    | .INPUT_PULLUP =>
      let s := { s with DDRB := cbi s.DDRB 4 }
      { s with PORTB := sbi s.PORTB 4 }
    | .OUTPUT =>
      { s with DDRB := sbi s.DDRB 4 }
  else s

/-- Procedure `void digitalDirections(u16 directions)`. -/
def digitalDirections (s : State) (directions : Nat) : State :=
  let lower := directions % 256
  let s := if gbi lower 0 ≠ 0 then { s with DDRB := sbi s.DDRB 4 }
           else { s with DDRB := cbi s.DDRB 4 }
  let s := if gbi lower 1 ≠ 0 then { s with DDRB := sbi s.DDRB 7 }
           else { s with DDRB := cbi s.DDRB 7 }
  { s with DDRA := (directions >>> 2) % 256 }

/-- Body of the `for (i = 0; i < 8; i++)` loop of `digitalPullups`. -/
def digitalPullupsBody (pullups2 : Nat) (s : State) (i : Nat) : State :=
  if gbi s.DDRA i = 0 then
    if gbi pullups2 i ≠ 0 then { s with PORTA := sbi s.PORTA i }
    else { s with PORTA := cbi s.PORTA i }
  else s

/-- Procedure `void digitalPullups(u16 pullups)`; the loop over `i = 0..7` is a fold of its
body over `List.range 8`. -/
def digitalPullups (s : State) (pullups : Nat) : State :=
  let s :=
    if gbi s.DDRB 4 = 0 then
      if gbi pullups 0 ≠ 0 then { s with PORTB := sbi s.PORTB 4 }
      else { s with PORTB := cbi s.PORTB 4 }
    else s
  let s :=
    if gbi s.DDRB 7 = 0 then
      if gbi pullups 1 ≠ 0 then { s with PORTB := sbi s.PORTB 7 }
      else { s with PORTB := cbi s.PORTB 7 }
    else s
  let pullups2 := (pullups >>> 2) % 256
  (List.range 8).foldl (digitalPullupsBody pullups2) s

/-- Function `u08 digitalInput(u08 num)`. The three tests cover every unsigned `num`;
the final branch cannot be reached. -/
def digitalInput (s : State) (num : Nat) : Nat :=
  if num > 1 then gbis s.PINA (num - 2) % 256
  else if num = 1 then gbis s.PINB 7 % 256
  else if num = 0 then gbis s.PINB 4 % 256
  else 0

/-- Procedure `void digitalOutput(u08 num, u08 value)`. -/
def digitalOutput (s : State) (num value : Nat) : State :=
  if value > 0 then
    if num > 1 then { s with PORTA := sbi s.PORTA (num - 2) }
    else if num = 1 then { s with PORTB := sbi s.PORTB 7 }
    else if num = 0 then { s with PORTB := sbi s.PORTB 4 }
    else s
  else
    if num > 1 then { s with PORTA := cbi s.PORTA (num - 2) }
    else if num = 1 then { s with PORTB := cbi s.PORTB 7 }
    else if num = 0 then { s with PORTB := cbi s.PORTB 4 }
    else s

/-- Procedure `void digitalOutputs(u16 outputs)`. -/
def digitalOutputs (s : State) (outputs : Nat) : State :=
  let s := { s with PORTA := (outputs >>> 2) % 256 }
  { s with PORTB :=
      ((s.PORTB &&& 0x6F) |||
        ((gbis (outputs % 256) 1 <<< PB7) ||| (gbi (outputs % 256) 0 <<< PB4))) % 256 }

/-- Function `u16 digitalInputs()`. -/
def digitalInputs (s : State) : Nat :=
  ((s.PINA <<< 2) ||| (gbis s.PINB 7 <<< 1) ||| gbis s.PINB 4) % 65536

/-! ## Reference behaviour and environment assumptions used by the statements -/

/-- The direction requested for line `n` by a mask: "OUTPUT when bit n of m is 1
and INPUT when bit n of m is 0". -/
def directionOfBit (m n : Nat) : Direction :=
  if m.testBit n then .OUTPUT else .INPUT

/-- Ten sequential single-line calls `digitalDirection(n, d_n)` for `n = 0..9`,
the reference the bulk form `digitalDirections` is compared with. -/
def sequentialDirections (s : State) (m : Nat) : State :=
  (List.range 10).foldl (fun t n => digitalDirection t n (directionOfBit m n)) s

/-- The pins take the levels `pa` (group A) and `pb` (group B): the state in
which the next read of `PINA` / `PINB` happens. -/
def withPins (s : State) (pa pb : Nat) : State :=
  { s with PINA := pa, PINB := pb }

/-- Nothing but the board drives its output lines: wherever a direction bit is 1
the level on the pin is the drive bit ("output PORT: 0=drive low, 1=drive high",
"read from PIN: value on the pin"). -/
def pinsFollowOutputs (s : State) : Prop :=
  ∀ k, k < 8 →
    (s.DDRA.testBit k = true → s.PINA.testBit k = s.PORTA.testBit k) ∧
    (s.DDRB.testBit k = true → s.PINB.testBit k = s.PORTB.testBit k)

instance (s : State) : Decidable (pinsFollowOutputs s) := by
  unfold pinsFollowOutputs; infer_instance

/-- The first half of the pull-up scenario: `digitalDirections(0x000)` then
`digitalPullups(0x3FF)`. -/
def scenarioAllPullups (s : State) : State :=
  digitalPullups (digitalDirections s 0x000) 0x3FF

/-- The second half of the pull-up scenario: a further `digitalDirection(5, OUTPUT)`
then `digitalPullups(0x000)`. -/
def scenarioLine5Output (s : State) : State :=
  digitalPullups (digitalDirection (scenarioAllPullups s) 5 .OUTPUT) 0x000

/-- The bit of digital line `n` in a pair of registers of the two groups: "lines 0
and 1 live in one register group at bit positions 4 and 7 respectively; lines 2-9
live in a second register group at bit positions 0-7 after subtracting 2 from the
line number". `ra` is the register of the second group (A), `rb` of the first (B). -/
def lineBit (ra rb n : Nat) : Bool :=
  if n = 0 then rb.testBit 4 else if n = 1 then rb.testBit 7 else ra.testBit (n - 2)

/-! ## Toggle, button and initialisation -/

/-- Modelled from the spec: macro `_BV(bit)` of avr-libc (a header outside the
sources at hand), the "single 1 bit" `1 << bit` of the 16-bit `int`. -/
def _BV (bit : Nat) : Nat := (1 <<< bit) % 65536

/-- Modelled from the spec: what the hardware does on a store into `PINA`,
"write to PIN: 1=toggle value of PORT" (the "toggle-on-write-to-input-latch
hardware feature"): the 8-bit value stored is applied as an exclusive or onto
`PORTA`. -/
def writePINA (s : State) (v : Nat) : State :=
  { s with PORTA := s.PORTA ^^^ (v % 256) }

/-- Modelled from the spec: what the hardware does on a store into `PINB`,
"write to PIN: 1=toggle value of PORT": the 8-bit value stored is applied as an
exclusive or onto `PORTB`. -/
def writePINB (s : State) (v : Nat) : State :=
  { s with PORTB := s.PORTB ^^^ (v % 256) }

/-- Procedure `void digitalOutputToggle(u08 num)`. -/
def digitalOutputToggle (s : State) (num : Nat) : State :=
  if num > 1 then writePINA s (_BV (num - 2))
  else if num = 1 then writePINB s (_BV 7)
  else if num = 0 then writePINB s (_BV 4)
  else s

/-- Function `u08 getButton1()`; the argument is the value read from `PIND` by the
call. -/
def getButton1 (PIND : Nat) : Nat :=
  if gbi PIND 4 = 0 then 1 else 0

/-- What `buttonWait` does, in order: a call of `getButton1()` that read the sample
`PIND`, or a call `delayMs(num)`. -/
inductive Event where
  | poll (PIND : Nat)
  | delayMs (num : Nat)
  deriving DecidableEq, Repr

/-- A loop `while (test(getButton1()));` with an empty body, run on the samples
still to come: every iteration polls the next sample. The result is the events
of the loop and the samples left, or `none` when the samples run out before the
loop ends. -/
def pollWhile (test : Nat → Bool) : List Nat → Option (List Event × List Nat)
  | [] => none
  | p :: rest =>
    if test (getButton1 p) then
      match pollWhile test rest with
      | none => none
      | some (tr, r) => some (Event.poll p :: tr, r)
    else some ([Event.poll p], rest)

/-- Procedure `void buttonWait()`: `while (!getButton1());`, `delayMs(30)`,
`while (getButton1());`, `delayMs(30)`. -/
def buttonWait (samples : List Nat) : Option (List Event × List Nat) :=
  match pollWhile (fun b => b == 0) samples with
  | none => none
  | some (tr1, rest1) =>
    match pollWhile (fun b => b != 0) rest1 with
    | none => none
    | some (tr2, rest2) =>
      some (tr1 ++ [Event.delayMs 30] ++ tr2 ++ [Event.delayMs 30], rest2)

/-- The registers of the digital lines together with the other port registers
the file touches: the bus on port C, button and clock strobe on port D, the LED
on port G. -/
@[ext]
structure Board extends State where
  DDRC : Nat := 0
  DDRD : Nat := 0
  PORTD : Nat := 0
  PIND : Nat := 0
  DDRG : Nat := 0
  PORTG : Nat := 0
  deriving DecidableEq, Repr

/-- Modelled from the spec: the compile-time configuration flags of `globals.h`
(not part of the sources at hand): "`USE_LCD`, `USE_I2C`, `USE_MOTOR0`,
`USE_MOTOR1`, `NUM_SERVOS` (count), `USE_ADC`, `USE_UART0`, `USE_UART1`,
`USE_RTC`". -/
structure Config where
  USE_LCD : Nat := 0
  USE_I2C : Nat := 0
  USE_MOTOR0 : Nat := 0
  USE_MOTOR1 : Nat := 0
  NUM_SERVOS : Nat := 0
  USE_ADC : Nat := 0
  USE_UART0 : Nat := 0
  USE_UART1 : Nat := 0
  USE_RTC : Nat := 0
  deriving DecidableEq, Repr

/-- The peripheral initializers called at board initialisation, which live in other files:
"invoked with no arguments and no return value"; each is an arbitrary effect on
the board registers. -/
structure Peripherals where
  lcdInit : Board → Board
  i2cInit : Board → Board
  motorInit : Board → Board
  servoInit : Board → Board
  adcInit : Board → Board
  uart0Init : Board → Board
  uart1Init : Board → Board
  rtcInit : Board → Board

/-- Procedure `void initialize()` (the name is reserved in Lean), its `#if` blocks decided
by `cfg`. -/
def initializeBoard (cfg : Config) (per : Peripherals) (b : Board) : Board :=
  let b := { b with DDRD := cbi b.DDRD 4 }
  let b := { b with PORTD := sbi b.PORTD 4 }
  let b := { b with DDRG := sbi b.DDRG 2 }
  let b := { b with DDRD := sbi b.DDRD 5 }
  let b := { b with DDRC := 0xFF }
  let b := if cfg.USE_LCD = 1 then per.lcdInit b else b
  let b := if cfg.USE_I2C = 1 then per.i2cInit b else b
  let b := if cfg.USE_MOTOR0 = 1 ∨ cfg.USE_MOTOR1 = 1 then per.motorInit b else b
  let b := if cfg.NUM_SERVOS > 0 then per.servoInit b else b
  let b := if cfg.USE_ADC = 1 then per.adcInit b else b
  let b := if cfg.USE_UART0 = 1 then per.uart0Init b else b
  let b := if cfg.USE_UART1 = 1 then per.uart1Init b else b
  let b := if cfg.USE_RTC = 1 then per.rtcInit b else b
  b

/-- Every peripheral initializer the configuration enables leaves the board
registers as they are ("absent or opaque no-ops on these registers"); nothing is
asked of an initializer that is compiled out. -/
def enabledAreNoOps (cfg : Config) (per : Peripherals) : Prop :=
  (cfg.USE_LCD = 1 → ∀ b, per.lcdInit b = b) ∧
  (cfg.USE_I2C = 1 → ∀ b, per.i2cInit b = b) ∧
  (cfg.USE_MOTOR0 = 1 ∨ cfg.USE_MOTOR1 = 1 → ∀ b, per.motorInit b = b) ∧
  (cfg.NUM_SERVOS > 0 → ∀ b, per.servoInit b = b) ∧
  (cfg.USE_ADC = 1 → ∀ b, per.adcInit b = b) ∧
  (cfg.USE_UART0 = 1 → ∀ b, per.uart0Init b = b) ∧
  (cfg.USE_UART1 = 1 → ∀ b, per.uart1Init b = b) ∧
  (cfg.USE_RTC = 1 → ∀ b, per.rtcInit b = b)

/-- Ten sequential single-line writes `digitalOutput(n, bit n of m)` for
`n = 0..9`, the reference the bulk form `digitalOutputs` is compared with. -/
def sequentialOutputs (s : State) (m : Nat) : State :=
  (List.range 10).foldl (fun t n => digitalOutput t n (m.testBit n).toNat) s

/-- The registers of the digital lines hold 8-bit values, as on the hardware. -/
def eightBit (s : State) : Prop :=
  s.DDRA < 256 ∧ s.DDRB < 256 ∧ s.PORTA < 256 ∧ s.PORTB < 256 ∧ s.PINA < 256 ∧ s.PINB < 256

instance (s : State) : Decidable (eightBit s) := by
  unfold eightBit; infer_instance

/-! ## Bit-level lemmas and characterisations of the operations -/

theorem testBit_one_shl_mod (b k : Nat) :
    ((1 <<< b) % 65536).testBit k = (decide (k < 16) && decide (b = k)) := by
  have h : (65536 : Nat) = 2 ^ 16 := by norm_num
  rw [h, Nat.testBit_mod_two_pow, Nat.one_shiftLeft, Nat.testBit_two_pow]

theorem testBit_sbi (a b k : Nat) :
    (sbi a b).testBit k = (decide (k < 8) && (a.testBit k || decide (k = b))) := by
  have h : (256 : Nat) = 2 ^ 8 := by norm_num
  unfold sbi
  rw [h, Nat.testBit_mod_two_pow, Nat.testBit_or, testBit_one_shl_mod]
  by_cases h8 : k < 8
  · have : k < 16 := by omega
    simp [h8, this, eq_comm]
  · simp [h8]

theorem testBit_cbi (a b k : Nat) :
    (cbi a b).testBit k = (decide (k < 8) && (a.testBit k && !decide (k = b))) := by
  have h : (256 : Nat) = 2 ^ 8 := by norm_num
  have h' : (65535 : Nat) = 2 ^ 16 - 1 := by norm_num
  unfold cbi
  rw [h, Nat.testBit_mod_two_pow, Nat.testBit_and, Nat.testBit_xor, testBit_one_shl_mod, h',
    Nat.testBit_two_pow_sub_one]
  by_cases h8 : k < 8
  · have : k < 16 := by omega
    simp [h8, this, eq_comm]
  · simp [h8]

theorem gbi_eq_zero_iff (a b : Nat) (hb : b < 16) : gbi a b = 0 ↔ a.testBit b = false := by
  unfold gbi
  constructor
  · intro h
    have := congrArg (fun x => x.testBit b) h
    simpa [testBit_one_shl_mod, hb] using this
  · intro h
    apply Nat.eq_of_testBit_eq
    intro i
    rw [Nat.testBit_and, testBit_one_shl_mod]
    by_cases hi : b = i
    · subst hi; simp [h]
    · simp [hi]

theorem gbis_eq (a b : Nat) (hb : b < 16) : gbis a b = (a.testBit b).toNat := by
  unfold gbis gbi
  apply Nat.eq_of_testBit_eq
  intro i
  rw [Nat.testBit_shiftRight, Nat.testBit_and, testBit_one_shl_mod, Nat.testBit_bool_to_nat]
  by_cases hi : i = 0
  · subst hi; simp [hb]
  · have : ¬ (b = b + i) := by omega
    simp [hi, this]

theorem gbi_ne_zero_iff (a b : Nat) (hb : b < 16) : gbi a b ≠ 0 ↔ a.testBit b = true := by
  rw [Ne, gbi_eq_zero_iff a b hb]; simp

/-! ### The pull-up loop -/

theorem digitalPullupsBody_frame (p : Nat) (s : State) (i : Nat) :
    (digitalPullupsBody p s i).DDRA = s.DDRA ∧ (digitalPullupsBody p s i).DDRB = s.DDRB ∧
    (digitalPullupsBody p s i).PORTB = s.PORTB ∧ (digitalPullupsBody p s i).PINA = s.PINA ∧
    (digitalPullupsBody p s i).PINB = s.PINB := by
  unfold digitalPullupsBody
  split_ifs <;> simp

theorem digitalPullupsBody_PORTA (p : Nat) (s : State) (i k : Nat) (hi : i < 16) (hk : k < 8) :
    (digitalPullupsBody p s i).PORTA.testBit k =
      if i = k ∧ s.DDRA.testBit k = false then p.testBit k else s.PORTA.testBit k := by
  unfold digitalPullupsBody
  by_cases hd : gbi s.DDRA i = 0
  · have hd' := (gbi_eq_zero_iff _ _ hi).1 hd
    by_cases hp : gbi p i ≠ 0
    · have hp' := (gbi_ne_zero_iff _ _ hi).1 hp
      rw [if_pos hd, if_pos hp]
      by_cases hik : i = k
      · subst hik; simp [testBit_sbi, hk, hd', hp']
      · have hki : ¬ k = i := fun h => hik h.symm
        simp [testBit_sbi, hk, hik, hki]
    · have hp' : p.testBit i = false := by
        rw [gbi_ne_zero_iff _ _ hi] at hp; simpa using hp
      rw [if_pos hd, if_neg hp]
      by_cases hik : i = k
      · subst hik; simp [testBit_cbi, hk, hd', hp']
      · have hki : ¬ k = i := fun h => hik h.symm
        simp [testBit_cbi, hk, hik, hki]
  · have hd' : s.DDRA.testBit i = true := (gbi_ne_zero_iff _ _ hi).1 hd
    rw [if_neg hd]
    by_cases hik : i = k
    · subst hik; simp [hd']
    · simp [hik]

theorem foldl_digitalPullupsBody_frame (p : Nat) (l : List Nat) (s : State) :
    (l.foldl (digitalPullupsBody p) s).DDRA = s.DDRA ∧
    (l.foldl (digitalPullupsBody p) s).DDRB = s.DDRB ∧
    (l.foldl (digitalPullupsBody p) s).PORTB = s.PORTB ∧
    (l.foldl (digitalPullupsBody p) s).PINA = s.PINA ∧
    (l.foldl (digitalPullupsBody p) s).PINB = s.PINB := by
  induction l generalizing s with
  | nil => simp
  | cons i l ih =>
    obtain ⟨h1, h2, h3, h4, h5⟩ := digitalPullupsBody_frame p s i
    obtain ⟨g1, g2, g3, g4, g5⟩ := ih (digitalPullupsBody p s i)
    simp only [List.foldl_cons]
    exact ⟨g1.trans h1, g2.trans h2, g3.trans h3, g4.trans h4, g5.trans h5⟩

theorem foldl_digitalPullupsBody_PORTA (p : Nat) (l : List Nat) (hl : ∀ i ∈ l, i < 16)
    (s : State) (k : Nat) (hk : k < 8) :
    (l.foldl (digitalPullupsBody p) s).PORTA.testBit k =
      if k ∈ l ∧ s.DDRA.testBit k = false then p.testBit k else s.PORTA.testBit k := by
  induction l generalizing s with
  | nil => simp
  | cons i l ih =>
    have hi : i < 16 := hl i (List.mem_cons_self _ _)
    have hl' : ∀ j ∈ l, j < 16 := fun j hj => hl j (List.mem_cons_of_mem _ hj)
    simp only [List.foldl_cons]
    rw [ih hl', (digitalPullupsBody_frame p s i).1, digitalPullupsBody_PORTA p s i k hi hk]
    by_cases hd : s.DDRA.testBit k = false
    · by_cases hik : i = k
      · subst hik; simp [hd]
      · have hki : ¬ k = i := fun h => hik h.symm
        simp [hd, hik, hki]
    · simp [hd]

/-- Registers and bits of `digitalPullups`, one by one. -/
theorem digitalPullups_spec (s : State) (m : Nat) :
    (digitalPullups s m).DDRA = s.DDRA ∧ (digitalPullups s m).DDRB = s.DDRB ∧
    (∀ k, k < 8 → (digitalPullups s m).PORTA.testBit k =
      if s.DDRA.testBit k = false then m.testBit (k + 2) else s.PORTA.testBit k) ∧
    (∀ k, k < 8 → (digitalPullups s m).PORTB.testBit k =
      if k = 4 ∧ s.DDRB.testBit 4 = false then m.testBit 0
      else if k = 7 ∧ s.DDRB.testBit 7 = false then m.testBit 1
      else s.PORTB.testBit k) := by
  have e1 : gbi s.DDRB 4 = 0 ↔ s.DDRB.testBit 4 = false := gbi_eq_zero_iff _ _ (by omega)
  have e2 : gbi s.DDRB 7 = 0 ↔ s.DDRB.testBit 7 = false := gbi_eq_zero_iff _ _ (by omega)
  have e3 : gbi m 0 ≠ 0 ↔ m.testBit 0 = true := gbi_ne_zero_iff _ _ (by omega)
  have e4 : gbi m 1 ≠ 0 ↔ m.testBit 1 = true := gbi_ne_zero_iff _ _ (by omega)
  have hr : ∀ i ∈ List.range 8, i < 16 := fun i hi => by
    have := List.mem_range.1 hi; omega
  have hp : ∀ k, k < 8 → ((m >>> 2) % 256).testBit k = m.testBit (k + 2) := fun k hk => by
    have h : (256 : Nat) = 2 ^ 8 := by norm_num
    rw [h, Nat.testBit_mod_two_pow, Nat.testBit_shiftRight, Nat.add_comm]
    simp [hk]
  unfold digitalPullups
  refine ⟨?_, ?_, ?_, ?_⟩
  · rw [(foldl_digitalPullupsBody_frame _ _ _).1]
    split_ifs <;> rfl
  · rw [(foldl_digitalPullupsBody_frame _ _ _).2.1]
    split_ifs <;> rfl
  · intro k hk
    rw [foldl_digitalPullupsBody_PORTA _ _ hr _ k hk, hp k hk]
    have hmem : k ∈ List.range 8 := List.mem_range.2 hk
    simp only [hmem, true_and]
    split_ifs <;> rfl
  · intro k hk
    rw [(foldl_digitalPullupsBody_frame _ _ _).2.2.1]
    simp only [e1, e3, e4]
    cases h4 : s.DDRB.testBit 4 <;> cases h7 : s.DDRB.testBit 7 <;>
      cases h0 : m.testBit 0 <;> cases h1 : m.testBit 1 <;>
      simp [e2, h4, h7, testBit_sbi, testBit_cbi, hk] <;>
      (by_cases k4 : k = 4 <;> by_cases k7 : k = 7 <;> simp_all)

theorem testBit_mod_256 (x k : Nat) : (x % 256).testBit k = (decide (k < 8) && x.testBit k) := by
  have h : (256 : Nat) = 2 ^ 8 := by norm_num
  rw [h, Nat.testBit_mod_two_pow]

/-- Registers and bits of `digitalDirections`, one by one. -/
theorem digitalDirections_spec (s : State) (m : Nat) :
    (digitalDirections s m).DDRA = (m >>> 2) % 256 ∧
    (digitalDirections s m).PORTA = s.PORTA ∧ (digitalDirections s m).PORTB = s.PORTB ∧
    (digitalDirections s m).PINA = s.PINA ∧ (digitalDirections s m).PINB = s.PINB ∧
    (∀ k, (digitalDirections s m).DDRB.testBit k =
      (decide (k < 8) && (if k = 4 then m.testBit 0 else if k = 7 then m.testBit 1
        else s.DDRB.testBit k))) := by
  have e0 : gbi (m % 256) 0 ≠ 0 ↔ m.testBit 0 = true := by
    rw [gbi_ne_zero_iff _ _ (by omega), testBit_mod_256]; simp
  have e1 : gbi (m % 256) 1 ≠ 0 ↔ m.testBit 1 = true := by
    rw [gbi_ne_zero_iff _ _ (by omega), testBit_mod_256]; simp
  dsimp only [digitalDirections]
  refine ⟨rfl, ?_, ?_, ?_, ?_, ?_⟩
  · split_ifs <;> rfl
  · split_ifs <;> rfl
  · split_ifs <;> rfl
  · split_ifs <;> rfl
  · intro k
    simp only [e0, e1]
    cases h0 : m.testBit 0 <;> cases h1 : m.testBit 1 <;>
      simp [testBit_sbi, testBit_cbi] <;>
      (by_cases k4 : k = 4 <;> by_cases k7 : k = 7 <;> simp_all)

/-- Unfolding of `digitalDirection` on a line of the second register group, `num -= 2`
resolved. -/
theorem digitalDirection_groupA (s : State) (n : Nat) (d : Direction) (h2 : 2 ≤ n) (h : n < 258) :
    digitalDirection s n d =
      match d with
      | .INPUT => { s with DDRA := cbi s.DDRA (n - 2), PORTA := cbi s.PORTA (n - 2) }
      | .INPUT_PULLUP => { s with DDRA := cbi s.DDRA (n - 2), PORTA := sbi s.PORTA (n - 2) }
      | .OUTPUT => { s with DDRA := sbi s.DDRA (n - 2) } := by
  have h1 : n > 1 := by omega
  have hm : (n - 2) % 256 = n - 2 := Nat.mod_eq_of_lt (by omega)
  unfold digitalDirection
  rw [if_pos h1]
  cases d <;> simp only [hm]

theorem digitalDirection_line1 (s : State) (d : Direction) :
    digitalDirection s 1 d =
      match d with
      | .INPUT => { s with DDRB := cbi s.DDRB 7, PORTB := cbi s.PORTB 7 }
      | .INPUT_PULLUP => { s with DDRB := cbi s.DDRB 7, PORTB := sbi s.PORTB 7 }
      | .OUTPUT => { s with DDRB := sbi s.DDRB 7 } := by
  cases d <;> rfl

theorem digitalDirection_line0 (s : State) (d : Direction) :
    digitalDirection s 0 d =
      match d with
      | .INPUT => { s with DDRB := cbi s.DDRB 4, PORTB := cbi s.PORTB 4 }
      | .INPUT_PULLUP => { s with DDRB := cbi s.DDRB 4, PORTB := sbi s.PORTB 4 }
      | .OUTPUT => { s with DDRB := sbi s.DDRB 4 } := by
  cases d <;> rfl

theorem gbi_zero_eq (a : Nat) : gbi a 0 = (a.testBit 0).toNat := by
  have h := gbis_eq a 0 (by omega)
  simpa [gbis] using h

theorem digitalOutputs_PORTB (s : State) (m k : Nat) :
    (digitalOutputs s m).PORTB.testBit k =
      if k = 4 then m.testBit 0 else if k = 7 then m.testBit 1
      else (decide (k < 8) && s.PORTB.testBit k) := by
  have e1 : gbis (m % 256) 1 = (m.testBit 1).toNat := by
    rw [gbis_eq _ _ (by omega), testBit_mod_256]; simp
  have e0 : gbi (m % 256) 0 = (m.testBit 0).toNat := by
    rw [gbi_zero_eq, testBit_mod_256]
    simp only [Nat.zero_lt_succ, decide_True, Bool.true_and]
  dsimp only [digitalOutputs, PB7, PB4]
  rw [e1, e0, testBit_mod_256, Nat.testBit_or, Nat.testBit_or, Nat.testBit_and,
    Nat.testBit_shiftLeft, Nat.testBit_shiftLeft, Nat.testBit_bool_to_nat,
    Nat.testBit_bool_to_nat]
  by_cases hk : k < 8
  · have hmask : Nat.testBit 0x6F k = (!decide (k = 4) && !decide (k = 7)) := by
      interval_cases k <;> decide
    rw [hmask]
    by_cases h4 : k = 4
    · subst h4; simp
    · by_cases h7 : k = 7
      · subst h7; simp
      · have g7 : ¬ 7 ≤ k := by omega
        have g4 : 4 ≤ k → ¬ k - 4 = 0 := by omega
        by_cases g : 4 ≤ k <;> simp [hk, h4, h7, g7, g, g4]
  · have h4 : k ≠ 4 := by omega
    have h7 : k ≠ 7 := by omega
    simp [hk, h4, h7]

theorem testBit_mod_65536 (x k : Nat) :
    (x % 65536).testBit k = (decide (k < 16) && x.testBit k) := by
  have h : (65536 : Nat) = 2 ^ 16 := by norm_num
  rw [h, Nat.testBit_mod_two_pow]

/-- Bits of the value returned by `digitalInputs`. -/
theorem digitalInputs_testBit (s : State) (k : Nat) :
    (digitalInputs s).testBit k =
      (decide (k < 16) &&
        (if k = 0 then s.PINB.testBit 4 else if k = 1 then s.PINB.testBit 7
         else s.PINA.testBit (k - 2))) := by
  unfold digitalInputs
  rw [testBit_mod_65536, Nat.testBit_or, Nat.testBit_or, Nat.testBit_shiftLeft,
    Nat.testBit_shiftLeft, gbis_eq _ 7 (by omega), gbis_eq _ 4 (by omega),
    Nat.testBit_bool_to_nat, Nat.testBit_bool_to_nat]
  by_cases h0 : k = 0
  · subst h0; simp
  · by_cases h1 : k = 1
    · subst h1; simp
    · have g2 : 2 ≤ k := by omega
      have g1 : 1 ≤ k := by omega
      have g : ¬ k - 1 = 0 := by omega
      simp [h0, h1, g2, g1, g]

/-- The value returned by `digitalInput` for a line 0..9 is the bit of the line in the
input-level register. -/
theorem digitalInput_eq (s : State) (n : Nat) (hn : n < 10) :
    digitalInput s n =
      (if n = 0 then s.PINB.testBit 4 else if n = 1 then s.PINB.testBit 7
       else s.PINA.testBit (n - 2)).toNat := by
  have hb : ∀ b : Bool, b.toNat % 256 = b.toNat := fun b => by cases b <;> rfl
  unfold digitalInput
  by_cases h0 : n = 0
  · subst h0
    simp only [gt_iff_lt, Nat.not_lt_zero, if_false, if_true, Nat.zero_ne_one]
    rw [gbis_eq _ _ (by omega), hb]
  · by_cases h1 : n = 1
    · subst h1
      simp only [gt_iff_lt, Nat.lt_irrefl, if_false, if_true, Nat.one_ne_zero]
      rw [gbis_eq _ _ (by omega), hb]
    · have g : n > 1 := by omega
      rw [if_pos g, if_neg h0, if_neg h1, gbis_eq _ _ (by omega), hb]

/-- Effect of `digitalOutput` on a line 0..9: directions untouched, the drive bit of the line is
`value > 0`. -/
theorem digitalOutput_lineBit (s : State) (n v : Nat) (hn : n < 10) :
    (digitalOutput s n v).DDRA = s.DDRA ∧ (digitalOutput s n v).DDRB = s.DDRB ∧
    lineBit (digitalOutput s n v).PORTA (digitalOutput s n v).PORTB n = decide (v > 0) := by
  unfold digitalOutput lineBit
  by_cases hv : v > 0
  · rw [if_pos hv]
    by_cases h0 : n = 0
    · subst h0; simp [testBit_sbi, hv]
    · by_cases h1 : n = 1
      · subst h1; simp [testBit_sbi, hv]
      · have g : n > 1 := by omega
        have hk : n - 2 < 8 := by omega
        simp [g, h0, h1, testBit_sbi, hk, hv]
  · rw [if_neg hv]
    by_cases h0 : n = 0
    · subst h0; simp [testBit_cbi, hv]
    · by_cases h1 : n = 1
      · subst h1; simp [testBit_cbi, hv]
      · have g : n > 1 := by omega
        simp [g, h0, h1, testBit_cbi, hv]

/-- On a line 0..9, `digitalDirection(n, OUTPUT)` sets the direction bit of the line. -/
theorem digitalDirection_OUTPUT_lineBit (s : State) (n : Nat) (hn : n < 10) :
    lineBit (digitalDirection s n .OUTPUT).DDRA (digitalDirection s n .OUTPUT).DDRB n = true := by
  unfold lineBit
  by_cases h0 : n = 0
  · subst h0; simp [digitalDirection_line0, testBit_sbi]
  · by_cases h1 : n = 1
    · subst h1; simp [digitalDirection_line1, testBit_sbi]
    · have hk : n - 2 < 8 := by omega
      simp [digitalDirection_groupA s n _ (by omega) (by omega), testBit_sbi, hk, h0, h1]

/-- Reading a line 0..9 that is an output returns its drive bit, when the pins follow the
outputs. -/
theorem digitalInput_of_output (t : State) (n : Nat) (hn : n < 10)
    (hd : lineBit t.DDRA t.DDRB n = true) (hf : pinsFollowOutputs t) :
    digitalInput t n = (lineBit t.PORTA t.PORTB n).toNat := by
  rw [digitalInput_eq t n hn]
  congr 1
  unfold lineBit at hd ⊢
  by_cases h0 : n = 0
  · subst h0
    simp only [if_true] at hd ⊢
    exact (hf 4 (by omega)).2 hd
  · by_cases h1 : n = 1
    · subst h1
      simp only [if_true, Nat.one_ne_zero, if_false] at hd ⊢
      exact (hf 7 (by omega)).2 hd
    · simp only [h0, h1, if_false] at hd ⊢
      exact (hf (n - 2) (by omega)).1 hd

/-! ### Ten sequential single-line direction calls -/

theorem sequentialDirections_unfold (s : State) (m : Nat) :
    sequentialDirections s m =
      digitalDirection (digitalDirection (digitalDirection (digitalDirection (digitalDirection
        (digitalDirection (digitalDirection (digitalDirection (digitalDirection
          (digitalDirection s 0 (directionOfBit m 0)) 1 (directionOfBit m 1))
          2 (directionOfBit m 2)) 3 (directionOfBit m 3)) 4 (directionOfBit m 4))
          5 (directionOfBit m 5)) 6 (directionOfBit m 6)) 7 (directionOfBit m 7))
          8 (directionOfBit m 8)) 9 (directionOfBit m 9) := rfl

/-- One single-line call with the direction taken from the mask, on a line of group A. -/
theorem maskStep_groupA (t : State) (m n : Nat) (h2 : 2 ≤ n) (h9 : n ≤ 9) :
    (digitalDirection t n (directionOfBit m n)).DDRB = t.DDRB ∧
    (digitalDirection t n (directionOfBit m n)).PORTB = t.PORTB ∧
    (digitalDirection t n (directionOfBit m n)).PINA = t.PINA ∧
    (digitalDirection t n (directionOfBit m n)).PINB = t.PINB ∧
    (∀ k, (digitalDirection t n (directionOfBit m n)).DDRA.testBit k =
      (decide (k < 8) && (if k = n - 2 then m.testBit n else t.DDRA.testBit k))) ∧
    (∀ k, (digitalDirection t n (directionOfBit m n)).PORTA.testBit k =
      (t.PORTA.testBit k && (m.testBit n || (decide (k < 8) && !decide (k = n - 2))))) := by
  rw [digitalDirection_groupA t n _ h2 (by omega)]
  unfold directionOfBit
  cases hb : m.testBit n
  · refine ⟨rfl, rfl, rfl, rfl, fun k => ?_, fun k => ?_⟩
    · by_cases hk : k = n - 2 <;> simp [testBit_cbi, hk]
    · by_cases hk : k = n - 2 <;> by_cases h8 : k < 8 <;> simp [testBit_cbi, hk, h8]
  · refine ⟨rfl, rfl, rfl, rfl, fun k => ?_, fun k => ?_⟩
    · have h8 : n - 2 < 8 := by omega
      by_cases hk : k = n - 2
      · subst hk; simp [testBit_sbi, h8]
      · simp [testBit_sbi, hk]
    · simp

/-- One single-line call with the direction taken from the mask, on line 0 (`b = 4`) or
line 1 (`b = 7`). -/
theorem maskStep_groupB (t : State) (m n b : Nat) (h : (n = 0 ∧ b = 4) ∨ (n = 1 ∧ b = 7)) :
    (digitalDirection t n (directionOfBit m n)).DDRA = t.DDRA ∧
    (digitalDirection t n (directionOfBit m n)).PORTA = t.PORTA ∧
    (digitalDirection t n (directionOfBit m n)).PINA = t.PINA ∧
    (digitalDirection t n (directionOfBit m n)).PINB = t.PINB ∧
    (digitalDirection t n (directionOfBit m n)).DDRB =
      (if m.testBit n then sbi t.DDRB b else cbi t.DDRB b) ∧
    (∀ k, (digitalDirection t n (directionOfBit m n)).PORTB.testBit k =
      (t.PORTB.testBit k && (m.testBit n || (decide (k < 8) && !decide (k = b))))) := by
  unfold directionOfBit
  rcases h with ⟨rfl, rfl⟩ | ⟨rfl, rfl⟩
  · rw [digitalDirection_line0]
    cases hb : m.testBit 0
    · refine ⟨rfl, rfl, rfl, rfl, by simp, fun k => ?_⟩
      by_cases hk : k = 4 <;> by_cases h8 : k < 8 <;> simp [testBit_cbi, hk, h8]
    · exact ⟨rfl, rfl, rfl, rfl, by simp, fun k => by simp⟩
  · rw [digitalDirection_line1]
    cases hb : m.testBit 1
    · refine ⟨rfl, rfl, rfl, rfl, by simp, fun k => ?_⟩
      by_cases hk : k = 7 <;> by_cases h8 : k < 8 <;> simp [testBit_cbi, hk, h8]
    · exact ⟨rfl, rfl, rfl, rfl, by simp, fun k => by simp⟩

/-- Registers and bits reached by the ten sequential single-line calls. -/
theorem sequentialDirections_spec (s : State) (m : Nat) :
    (∀ k, (sequentialDirections s m).DDRA.testBit k = (decide (k < 8) && m.testBit (k + 2))) ∧
    (sequentialDirections s m).DDRB =
      (if m.testBit 1 then sbi (if m.testBit 0 then sbi s.DDRB 4 else cbi s.DDRB 4) 7
       else cbi (if m.testBit 0 then sbi s.DDRB 4 else cbi s.DDRB 4) 7) ∧
    (∀ k, k < 8 → (sequentialDirections s m).PORTA.testBit k =
      (s.PORTA.testBit k && m.testBit (k + 2))) ∧
    (∀ k, (sequentialDirections s m).PORTA.testBit k = true → s.PORTA.testBit k = true) ∧
    (∀ k, (sequentialDirections s m).PORTB.testBit k =
      (s.PORTB.testBit k && (m.testBit 0 || (decide (k < 8) && !decide (k = 4))) &&
        (m.testBit 1 || (decide (k < 8) && !decide (k = 7))))) ∧
    (sequentialDirections s m).PINA = s.PINA ∧ (sequentialDirections s m).PINB = s.PINB := by
  rw [sequentialDirections_unfold]
  obtain ⟨a0, pa0, ia0, ib0, b0, pb0⟩ := maskStep_groupB s m 0 4 (Or.inl ⟨rfl, rfl⟩)
  set t1 := digitalDirection s 0 (directionOfBit m 0)
  obtain ⟨a1, pa1, ia1, ib1, b1, pb1⟩ := maskStep_groupB t1 m 1 7 (Or.inr ⟨rfl, rfl⟩)
  set t2 := digitalDirection t1 1 (directionOfBit m 1)
  obtain ⟨b2, pb2, ia2, ib2, a2, pa2⟩ := maskStep_groupA t2 m 2 (by omega) (by omega)
  set t3 := digitalDirection t2 2 (directionOfBit m 2)
  obtain ⟨b3, pb3, ia3, ib3, a3, pa3⟩ := maskStep_groupA t3 m 3 (by omega) (by omega)
  set t4 := digitalDirection t3 3 (directionOfBit m 3)
  obtain ⟨b4, pb4, ia4, ib4, a4, pa4⟩ := maskStep_groupA t4 m 4 (by omega) (by omega)
  set t5 := digitalDirection t4 4 (directionOfBit m 4)
  obtain ⟨b5, pb5, ia5, ib5, a5, pa5⟩ := maskStep_groupA t5 m 5 (by omega) (by omega)
  set t6 := digitalDirection t5 5 (directionOfBit m 5)
  obtain ⟨b6, pb6, ia6, ib6, a6, pa6⟩ := maskStep_groupA t6 m 6 (by omega) (by omega)
  set t7 := digitalDirection t6 6 (directionOfBit m 6)
  obtain ⟨b7, pb7, ia7, ib7, a7, pa7⟩ := maskStep_groupA t7 m 7 (by omega) (by omega)
  set t8 := digitalDirection t7 7 (directionOfBit m 7)
  obtain ⟨b8, pb8, ia8, ib8, a8, pa8⟩ := maskStep_groupA t8 m 8 (by omega) (by omega)
  set t9 := digitalDirection t8 8 (directionOfBit m 8)
  obtain ⟨b9, pb9, ia9, ib9, a9, pa9⟩ := maskStep_groupA t9 m 9 (by omega) (by omega)
  have hPA : ∀ k, (digitalDirection t9 9 (directionOfBit m 9)).PORTA.testBit k =
      (s.PORTA.testBit k &&
        (m.testBit 2 || (decide (k < 8) && !decide (k = 0))) &&
        (m.testBit 3 || (decide (k < 8) && !decide (k = 1))) &&
        (m.testBit 4 || (decide (k < 8) && !decide (k = 2))) &&
        (m.testBit 5 || (decide (k < 8) && !decide (k = 3))) &&
        (m.testBit 6 || (decide (k < 8) && !decide (k = 4))) &&
        (m.testBit 7 || (decide (k < 8) && !decide (k = 5))) &&
        (m.testBit 8 || (decide (k < 8) && !decide (k = 6))) &&
        (m.testBit 9 || (decide (k < 8) && !decide (k = 7)))) := by
    intro k
    rw [pa9, pa8, pa7, pa6, pa5, pa4, pa3, pa2, pa1, pa0]
  refine ⟨fun k => ?_, ?_, fun k hk => ?_, fun k hk => ?_, fun k => ?_, ?_, ?_⟩
  · rw [a9, a8, a7, a6, a5, a4, a3, a2, a1, a0]
    by_cases hk : k < 8
    · interval_cases k <;> simp
    · simp [hk]
  · rw [b9, b8, b7, b6, b5, b4, b3, b2, b1, b0]
  · rw [hPA]
    interval_cases k <;> simp
  · rw [hPA] at hk
    simp only [Bool.and_eq_true] at hk
    exact hk.1.1.1.1.1.1.1.1
  · rw [pb9, pb8, pb7, pb6, pb5, pb4, pb3, pb2, pb1, pb0]
  · rw [ia9, ia8, ia7, ia6, ia5, ia4, ia3, ia2, ia1, ia0]
  · rw [ib9, ib8, ib7, ib6, ib5, ib4, ib3, ib2, ib1, ib0]

/-! ### Registers holding 8-bit values -/

theorem testBit_of_lt_256 (a k : Nat) (ha : a < 256) (hk : 8 ≤ k) : a.testBit k = false := by
  apply Nat.testBit_lt_two_pow
  calc a < 2 ^ 8 := by omega
    _ ≤ 2 ^ k := Nat.pow_le_pow_right (by omega) hk

theorem testBit_sbi_of_lt (a b k : Nat) (ha : a < 256) :
    (sbi a b).testBit k = (a.testBit k || (decide (k < 8) && decide (k = b))) := by
  rw [testBit_sbi]
  by_cases hk : k < 8
  · simp [hk]
  · simp [hk, testBit_of_lt_256 a k ha (by omega)]

theorem testBit_cbi_of_lt (a b k : Nat) (ha : a < 256) :
    (cbi a b).testBit k = (a.testBit k && !decide (k = b)) := by
  rw [testBit_cbi]
  by_cases hk : k < 8
  · simp [hk]
  · simp [hk, testBit_of_lt_256 a k ha (by omega)]

theorem sbi_lt (a b : Nat) : sbi a b < 256 := Nat.mod_lt _ (by omega)

theorem cbi_lt (a b : Nat) : cbi a b < 256 := Nat.mod_lt _ (by omega)

/-- Unfolding of `digitalOutput` on a line of the second register group. -/
theorem digitalOutput_groupA (s : State) (n v : Nat) (h2 : 2 ≤ n) :
    digitalOutput s n v =
      if v > 0 then { s with PORTA := sbi s.PORTA (n - 2) }
      else { s with PORTA := cbi s.PORTA (n - 2) } := by
  have h1 : n > 1 := by omega
  unfold digitalOutput
  simp only [h1, if_true]

theorem digitalOutput_line1 (s : State) (v : Nat) :
    digitalOutput s 1 v =
      if v > 0 then { s with PORTB := sbi s.PORTB 7 } else { s with PORTB := cbi s.PORTB 7 } := by
  rfl

theorem digitalOutput_line0 (s : State) (v : Nat) :
    digitalOutput s 0 v =
      if v > 0 then { s with PORTB := sbi s.PORTB 4 } else { s with PORTB := cbi s.PORTB 4 } := by
  rfl

/-! ### Toggling -/

theorem testBit_BV_mod (b k : Nat) :
    (_BV b % 256).testBit k = (decide (k < 8) && decide (b = k)) := by
  unfold _BV
  rw [testBit_mod_256, testBit_one_shl_mod]
  by_cases hk : k < 8
  · have : k < 16 := by omega
    simp [hk, this]
  · simp [hk]

/-- Unfolding of `digitalOutputToggle`: only the port register of the line's group changes,
by an exclusive or with the 8-bit value stored. -/
theorem digitalOutputToggle_eq (s : State) (n : Nat) :
    digitalOutputToggle s n =
      if n = 0 then { s with PORTB := s.PORTB ^^^ (_BV 4 % 256) }
      else if n = 1 then { s with PORTB := s.PORTB ^^^ (_BV 7 % 256) }
      else { s with PORTA := s.PORTA ^^^ (_BV (n - 2) % 256) } := by
  unfold digitalOutputToggle writePINA writePINB
  by_cases h0 : n = 0
  · subst h0; rfl
  · by_cases h1 : n = 1
    · subst h1; rfl
    · have : n > 1 := by omega
      simp [h0, h1, this]

/-- Bits of the port registers after `digitalOutputToggle` on a line 0..9. -/
theorem digitalOutputToggle_spec (s : State) (n : Nat) (hn : n < 10) :
    (digitalOutputToggle s n).DDRA = s.DDRA ∧ (digitalOutputToggle s n).DDRB = s.DDRB ∧
    (digitalOutputToggle s n).PINA = s.PINA ∧ (digitalOutputToggle s n).PINB = s.PINB ∧
    (∀ k, (digitalOutputToggle s n).PORTA.testBit k =
      (s.PORTA.testBit k ^^ (decide (2 ≤ n) && decide (k = n - 2)))) ∧
    (∀ k, (digitalOutputToggle s n).PORTB.testBit k =
      (s.PORTB.testBit k ^^ ((decide (n = 0) && decide (k = 4)) ||
        (decide (n = 1) && decide (k = 7))))) := by
  rw [digitalOutputToggle_eq]
  by_cases h0 : n = 0
  · subst h0
    refine ⟨rfl, rfl, rfl, rfl, fun k => by simp, fun k => ?_⟩
    simp only [if_true, Nat.testBit_xor, testBit_BV_mod]
    by_cases hk : k = 4
    · subst hk; simp
    · have : ¬ 4 = k := fun h => hk h.symm
      simp [hk, this]
  · by_cases h1 : n = 1
    · subst h1
      refine ⟨rfl, rfl, rfl, rfl, fun k => by simp, fun k => ?_⟩
      simp only [if_true, Nat.one_ne_zero, if_false, Nat.testBit_xor, testBit_BV_mod]
      by_cases hk : k = 7
      · subst hk; simp
      · have : ¬ 7 = k := fun h => hk h.symm
        simp [hk, this]
    · have h2 : 2 ≤ n := by omega
      rw [if_neg h0, if_neg h1]
      refine ⟨rfl, rfl, rfl, rfl, fun k => ?_, fun k => by simp [h0, h1]⟩
      simp only [Nat.testBit_xor, testBit_BV_mod]
      by_cases hk : k = n - 2
      · have h8 : n - 2 < 8 := by omega
        subst hk; simp [h2, h8]
      · have : ¬ n - 2 = k := fun h => hk h.symm
        simp [hk, this]

/-! ### Board initialisation -/

/-- With every enabled peripheral initializer a no-op, board initialisation is its five
register stores. -/
theorem initializeBoard_eq (cfg : Config) (per : Peripherals) (b : Board)
    (h : enabledAreNoOps cfg per) :
    initializeBoard cfg per b =
      { b with DDRD := sbi (cbi b.DDRD 4) 5, PORTD := sbi b.PORTD 4, DDRG := sbi b.DDRG 2,
               DDRC := 0xFF } := by
  obtain ⟨h1, h2, h3, h4, h5, h6, h7, h8⟩ := h
  have e : ∀ (c : Prop) [Decidable c] (f : Board → Board) (x : Board),
      (c → ∀ y, f y = y) → (if c then f x else x) = x := by
    intro c _ f x hc
    by_cases hcc : c
    · rw [if_pos hcc, hc hcc]
    · rw [if_neg hcc]
  simp only [initializeBoard]
  rw [e _ _ _ h8, e _ _ _ h7, e _ _ _ h6, e _ _ _ h5, e _ _ _ h4, e _ _ _ h3, e _ _ _ h2,
    e _ _ _ h1]

theorem sbi_idem (a b : Nat) : sbi (sbi a b) b = sbi a b := by
  apply Nat.eq_of_testBit_eq
  intro k
  simp only [testBit_sbi]
  by_cases hk : k < 8 <;> by_cases hb : k = b <;> simp [hk, hb]

theorem sbi_cbi_idem (a : Nat) : sbi (cbi (sbi (cbi a 4) 5) 4) 5 = sbi (cbi a 4) 5 := by
  apply Nat.eq_of_testBit_eq
  intro k
  simp only [testBit_sbi, testBit_cbi]
  by_cases hk : k < 8 <;> by_cases h4 : k = 4 <;> by_cases h5 : k = 5 <;> simp [hk, h4, h5]

/-! ### The lower ten bits of a mask -/

theorem testBit_and_1023 (m k : Nat) :
    (m &&& 1023).testBit k = (m.testBit k && decide (k < 10)) := by
  have h : (1023 : Nat) = 2 ^ 10 - 1 := by norm_num
  rw [Nat.testBit_and, h, Nat.testBit_two_pow_sub_one]

theorem and_1023_low (m : Nat) : (m &&& 1023) % 256 = m % 256 := by
  apply Nat.eq_of_testBit_eq
  intro k
  rw [testBit_mod_256, testBit_mod_256, testBit_and_1023]
  by_cases hk : k < 8
  · have : k < 10 := by omega
    simp [hk, this]
  · simp [hk]

theorem and_1023_high (m : Nat) : ((m &&& 1023) >>> 2) % 256 = (m >>> 2) % 256 := by
  apply Nat.eq_of_testBit_eq
  intro k
  rw [testBit_mod_256, testBit_mod_256, Nat.testBit_shiftRight, Nat.testBit_shiftRight,
    testBit_and_1023]
  by_cases hk : k < 8
  · have : 2 + k < 10 := by omega
    simp [hk, this]
  · simp [hk]

theorem gbi_and_1023 (m b : Nat) (hb : b < 10) : gbi (m &&& 1023) b = gbi m b := by
  unfold gbi
  apply Nat.eq_of_testBit_eq
  intro k
  rw [Nat.testBit_and, testBit_and_1023, Nat.testBit_and, testBit_one_shl_mod]
  by_cases hk : b = k
  · have : k < 10 := by omega
    simp [hk, this]
  · simp [hk]

/-- The direction bit of every line 0..9 after `digitalDirections(m)` is bit `n` of `m`. -/
theorem digitalDirections_lineBit (s : State) (m n : Nat) (hn : n ≤ 9) :
    lineBit (digitalDirections s m).DDRA (digitalDirections s m).DDRB n = m.testBit n := by
  obtain ⟨hA, -, -, -, -, hB⟩ := digitalDirections_spec s m
  unfold lineBit
  by_cases h0 : n = 0
  · subst h0; simp [hB]
  · by_cases h1 : n = 1
    · subst h1; simp [hB]
    · have hk : n - 2 < 8 := by omega
      have e : 2 + (n - 2) = n := by omega
      simp [h0, h1, hA, testBit_mod_256, hk, e]

/-- The drive bit of every line 0..9 after `digitalOutputs(m)` is bit `n` of `m`. -/
theorem digitalOutputs_lineBit (s : State) (m n : Nat) (hn : n ≤ 9) :
    lineBit (digitalOutputs s m).PORTA (digitalOutputs s m).PORTB n = m.testBit n := by
  have hA : (digitalOutputs s m).PORTA = (m >>> 2) % 256 := rfl
  unfold lineBit
  by_cases h0 : n = 0
  · subst h0; simp [digitalOutputs_PORTB]
  · by_cases h1 : n = 1
    · subst h1; simp [digitalOutputs_PORTB]
    · have hk : n - 2 < 8 := by omega
      have e : 2 + (n - 2) = n := by omega
      simp [h0, h1, hA, testBit_mod_256, hk, e]

/-- The pull-up bit of every input line 0..9 after `digitalPullups(m)` is bit `n` of `m`. -/
theorem digitalPullups_lineBit (s : State) (m n : Nat) (hn : n ≤ 9)
    (hd : lineBit s.DDRA s.DDRB n = false) :
    lineBit (digitalPullups s m).PORTA (digitalPullups s m).PORTB n = m.testBit n := by
  obtain ⟨-, -, hA, hB⟩ := digitalPullups_spec s m
  unfold lineBit at hd ⊢
  by_cases h0 : n = 0
  · subst h0
    simp only [if_true] at hd
    simp [hB 4 (by omega), hd]
  · by_cases h1 : n = 1
    · subst h1
      simp only [if_true, Nat.one_ne_zero, if_false] at hd
      simp [hB 7 (by omega), hd]
    · simp only [h0, h1, if_false] at hd
      have e : n - 2 + 2 = n := by omega
      simp [h0, h1, hA (n - 2) (by omega), hd, e]

/-! ### Polling loops of `buttonWait` -/

/-- A polling loop ends exactly on the first sample that fails its test: it consumed the
samples `a` that pass the test and then the sample `q` that does not. -/
theorem pollWhile_eq_some_iff (test : Nat → Bool) (samples : List Nat) (tr : List Event)
    (rest : List Nat) :
    pollWhile test samples = some (tr, rest) ↔
      ∃ a q, (∀ x ∈ a, test (getButton1 x) = true) ∧ test (getButton1 q) = false ∧
        samples = a ++ q :: rest ∧ tr = a.map Event.poll ++ [Event.poll q] := by
  induction samples generalizing tr with
  | nil =>
    constructor
    · intro h; simp [pollWhile] at h
    · rintro ⟨a, q, -, -, h, -⟩
      cases a <;> simp at h
  | cons p ps ih =>
    by_cases hp : test (getButton1 p) = true
    · constructor
      · intro h
        simp only [pollWhile, hp, if_true] at h
        cases hr : pollWhile test ps with
        | none => rw [hr] at h; simp at h
        | some res =>
          obtain ⟨tr0, r0⟩ := res
          rw [hr] at h
          simp only [Option.some.injEq, Prod.mk.injEq] at h
          obtain ⟨h1, h2⟩ := h
          subst h1; subst h2
          obtain ⟨a, q, ha, hq, hs, ht⟩ := (ih tr0).1 hr
          refine ⟨p :: a, q, ?_, hq, ?_, ?_⟩
          · intro x hx
            rcases List.mem_cons.1 hx with rfl | hx
            · exact hp
            · exact ha x hx
          · rw [hs]; rfl
          · rw [ht]; rfl
      · rintro ⟨a, q, ha, hq, hs, ht⟩
        cases a with
        | nil =>
          simp only [List.nil_append, List.cons.injEq] at hs
          rw [← hs.1, hp] at hq
          cases hq
        | cons x a =>
          simp only [List.cons_append, List.cons.injEq] at hs
          obtain ⟨hx, hs⟩ := hs
          subst hx
          have hrec : pollWhile test ps = some (a.map Event.poll ++ [Event.poll q], rest) :=
            (ih _).2 ⟨a, q, fun y hy => ha y (List.mem_cons_of_mem _ hy), hq, hs, rfl⟩
          simp only [pollWhile, hp, if_true, hrec, ht, List.map_cons, List.cons_append]
    · have hp' : test (getButton1 p) = false := by simpa using hp
      constructor
      · intro h
        simp only [pollWhile, hp', Bool.false_eq_true, if_false, Option.some.injEq,
          Prod.mk.injEq] at h
        obtain ⟨h1, h2⟩ := h
        exact ⟨[], p, by simp, hp', by simp [h2], by simp [h1]⟩
      · rintro ⟨a, q, ha, hq, hs, ht⟩
        cases a with
        | nil =>
          simp only [List.nil_append, List.cons.injEq] at hs
          obtain ⟨hx, hs⟩ := hs
          subst hx; subst hs
          simp [pollWhile, hp', ht]
        | cons x a =>
          simp only [List.cons_append, List.cons.injEq] at hs
          have := ha x (List.mem_cons_self _ _)
          rw [← hs.1, hp'] at this
          cases this

theorem getButton1_zero_or_one (x : Nat) : getButton1 x = 0 ∨ getButton1 x = 1 := by
  unfold getButton1
  split_ifs
  · exact Or.inr rfl
  · exact Or.inl rfl

/-! ### Ten sequential single-line writes -/

theorem sequentialOutputs_unfold (s : State) (m : Nat) :
    sequentialOutputs s m =
      digitalOutput (digitalOutput (digitalOutput (digitalOutput (digitalOutput
        (digitalOutput (digitalOutput (digitalOutput (digitalOutput
          (digitalOutput s 0 (m.testBit 0).toNat) 1 (m.testBit 1).toNat)
          2 (m.testBit 2).toNat) 3 (m.testBit 3).toNat) 4 (m.testBit 4).toNat)
          5 (m.testBit 5).toNat) 6 (m.testBit 6).toNat) 7 (m.testBit 7).toNat)
          8 (m.testBit 8).toNat) 9 (m.testBit 9).toNat := rfl

/-- One single-line write with the value taken from the mask, on a line of group A. -/
theorem maskWrite_groupA (t : State) (m n : Nat) (h2 : 2 ≤ n) (h9 : n ≤ 9) :
    (digitalOutput t n (m.testBit n).toNat).DDRA = t.DDRA ∧
    (digitalOutput t n (m.testBit n).toNat).DDRB = t.DDRB ∧
    (digitalOutput t n (m.testBit n).toNat).PORTB = t.PORTB ∧
    (digitalOutput t n (m.testBit n).toNat).PINA = t.PINA ∧
    (digitalOutput t n (m.testBit n).toNat).PINB = t.PINB ∧
    (∀ k, (digitalOutput t n (m.testBit n).toNat).PORTA.testBit k =
      (decide (k < 8) && (if k = n - 2 then m.testBit n else t.PORTA.testBit k))) := by
  rw [digitalOutput_groupA t n _ h2]
  have h8 : n - 2 < 8 := by omega
  cases hb : m.testBit n
  · refine ⟨rfl, rfl, rfl, rfl, rfl, fun k => ?_⟩
    by_cases hk : k = n - 2
    · simp [testBit_cbi, hk]
    · simp [testBit_cbi, hk]
  · refine ⟨rfl, rfl, rfl, rfl, rfl, fun k => ?_⟩
    by_cases hk : k = n - 2
    · subst hk; simp [testBit_sbi, h8]
    · simp [testBit_sbi, hk]

/-- One single-line write with the value taken from the mask, on line 0 (`b = 4`) or
line 1 (`b = 7`). -/
theorem maskWrite_groupB (t : State) (m n b : Nat) (h : (n = 0 ∧ b = 4) ∨ (n = 1 ∧ b = 7)) :
    (digitalOutput t n (m.testBit n).toNat).DDRA = t.DDRA ∧
    (digitalOutput t n (m.testBit n).toNat).DDRB = t.DDRB ∧
    (digitalOutput t n (m.testBit n).toNat).PORTA = t.PORTA ∧
    (digitalOutput t n (m.testBit n).toNat).PINA = t.PINA ∧
    (digitalOutput t n (m.testBit n).toNat).PINB = t.PINB ∧
    (∀ k, (digitalOutput t n (m.testBit n).toNat).PORTB.testBit k =
      (decide (k < 8) && (if k = b then m.testBit n else t.PORTB.testBit k))) := by
  rcases h with ⟨rfl, rfl⟩ | ⟨rfl, rfl⟩
  · rw [digitalOutput_line0]
    cases hb : m.testBit 0
    · refine ⟨rfl, rfl, rfl, rfl, rfl, fun k => ?_⟩
      by_cases hk : k = 4 <;> simp [testBit_cbi, hk]
    · refine ⟨rfl, rfl, rfl, rfl, rfl, fun k => ?_⟩
      by_cases hk : k = 4 <;> simp [testBit_sbi, hk]
  · rw [digitalOutput_line1]
    cases hb : m.testBit 1
    · refine ⟨rfl, rfl, rfl, rfl, rfl, fun k => ?_⟩
      by_cases hk : k = 7 <;> simp [testBit_cbi, hk]
    · refine ⟨rfl, rfl, rfl, rfl, rfl, fun k => ?_⟩
      by_cases hk : k = 7 <;> simp [testBit_sbi, hk]

/-- Registers and bits reached by the ten sequential single-line writes. -/
theorem sequentialOutputs_spec (s : State) (m : Nat) :
    (sequentialOutputs s m).DDRA = s.DDRA ∧ (sequentialOutputs s m).DDRB = s.DDRB ∧
    (sequentialOutputs s m).PINA = s.PINA ∧ (sequentialOutputs s m).PINB = s.PINB ∧
    (∀ k, (sequentialOutputs s m).PORTA.testBit k = (decide (k < 8) && m.testBit (k + 2))) ∧
    (∀ k, (sequentialOutputs s m).PORTB.testBit k =
      if k = 4 then m.testBit 0 else if k = 7 then m.testBit 1
      else (decide (k < 8) && s.PORTB.testBit k)) := by
  rw [sequentialOutputs_unfold]
  obtain ⟨a0, b0, pa0, ia0, ib0, pb0⟩ := maskWrite_groupB s m 0 4 (Or.inl ⟨rfl, rfl⟩)
  set t1 := digitalOutput s 0 (m.testBit 0).toNat
  obtain ⟨a1, b1, pa1, ia1, ib1, pb1⟩ := maskWrite_groupB t1 m 1 7 (Or.inr ⟨rfl, rfl⟩)
  set t2 := digitalOutput t1 1 (m.testBit 1).toNat
  obtain ⟨a2, b2, pb2, ia2, ib2, pa2⟩ := maskWrite_groupA t2 m 2 (by omega) (by omega)
  set t3 := digitalOutput t2 2 (m.testBit 2).toNat
  obtain ⟨a3, b3, pb3, ia3, ib3, pa3⟩ := maskWrite_groupA t3 m 3 (by omega) (by omega)
  set t4 := digitalOutput t3 3 (m.testBit 3).toNat
  obtain ⟨a4, b4, pb4, ia4, ib4, pa4⟩ := maskWrite_groupA t4 m 4 (by omega) (by omega)
  set t5 := digitalOutput t4 4 (m.testBit 4).toNat
  obtain ⟨a5, b5, pb5, ia5, ib5, pa5⟩ := maskWrite_groupA t5 m 5 (by omega) (by omega)
  set t6 := digitalOutput t5 5 (m.testBit 5).toNat
  obtain ⟨a6, b6, pb6, ia6, ib6, pa6⟩ := maskWrite_groupA t6 m 6 (by omega) (by omega)
  set t7 := digitalOutput t6 6 (m.testBit 6).toNat
  obtain ⟨a7, b7, pb7, ia7, ib7, pa7⟩ := maskWrite_groupA t7 m 7 (by omega) (by omega)
  set t8 := digitalOutput t7 7 (m.testBit 7).toNat
  obtain ⟨a8, b8, pb8, ia8, ib8, pa8⟩ := maskWrite_groupA t8 m 8 (by omega) (by omega)
  set t9 := digitalOutput t8 8 (m.testBit 8).toNat
  obtain ⟨a9, b9, pb9, ia9, ib9, pa9⟩ := maskWrite_groupA t9 m 9 (by omega) (by omega)
  refine ⟨?_, ?_, ?_, ?_, fun k => ?_, fun k => ?_⟩
  · rw [a9, a8, a7, a6, a5, a4, a3, a2, a1, a0]
  · rw [b9, b8, b7, b6, b5, b4, b3, b2, b1, b0]
  · rw [ia9, ia8, ia7, ia6, ia5, ia4, ia3, ia2, ia1, ia0]
  · rw [ib9, ib8, ib7, ib6, ib5, ib4, ib3, ib2, ib1, ib0]
  · rw [pa9, pa8, pa7, pa6, pa5, pa4, pa3, pa2]
    by_cases hk : k < 8
    · interval_cases k <;> simp
    · simp [hk]
  · rw [pb9, pb8, pb7, pb6, pb5, pb4, pb3, pb2, pb1, pb0]
    by_cases h4 : k = 4
    · subst h4; simp
    · by_cases h7 : k = 7
      · subst h7; simp
      · simp [h4, h7]

/-! ### Frame of a single-line direction call, out-of-range lines -/

theorem testBit_sbi_other (a b k : Nat) (ha : a < 256) (hk : k ≠ b) :
    (sbi a b).testBit k = a.testBit k := by
  simp [testBit_sbi_of_lt a b k ha, hk]

theorem testBit_cbi_other (a b k : Nat) (ha : a < 256) (hk : k ≠ b) :
    (cbi a b).testBit k = a.testBit k := by
  simp [testBit_cbi_of_lt a b k ha, hk]

/-- Setting a bit outside an 8-bit register changes nothing. -/
theorem sbi_out_of_range (a b : Nat) (ha : a < 256) (hb : 8 ≤ b) : sbi a b = a := by
  apply Nat.eq_of_testBit_eq
  intro k
  rw [testBit_sbi_of_lt a b k ha]
  by_cases hk : k < 8
  · have : k ≠ b := by omega
    simp [this]
  · simp [hk]

/-- Clearing a bit outside an 8-bit register changes nothing. -/
theorem cbi_out_of_range (a b : Nat) (ha : a < 256) (hb : 8 ≤ b) : cbi a b = a := by
  apply Nat.eq_of_testBit_eq
  intro k
  rw [testBit_cbi_of_lt a b k ha]
  by_cases hk : k = b
  · subst hk; simp [testBit_of_lt_256 a k ha hb]
  · simp [hk]

/-- Bits of the second register group left alone by `digitalDirection` on a line 2..9. -/
theorem digitalDirection_groupA_frame (s : State) (n : Nat) (d : Direction) (h2 : 2 ≤ n)
    (h9 : n ≤ 9) (hDA : s.DDRA < 256) (hPA : s.PORTA < 256) :
    (digitalDirection s n d).DDRB = s.DDRB ∧ (digitalDirection s n d).PORTB = s.PORTB ∧
    (∀ k, k ≠ n - 2 →
      (digitalDirection s n d).DDRA.testBit k = s.DDRA.testBit k ∧
      (digitalDirection s n d).PORTA.testBit k = s.PORTA.testBit k) := by
  rw [digitalDirection_groupA s n d h2 (by omega)]
  cases d
  · exact ⟨rfl, rfl, fun k hk =>
      ⟨testBit_cbi_other _ _ _ hDA hk, testBit_cbi_other _ _ _ hPA hk⟩⟩
  · exact ⟨rfl, rfl, fun k hk =>
      ⟨testBit_cbi_other _ _ _ hDA hk, testBit_sbi_other _ _ _ hPA hk⟩⟩
  · exact ⟨rfl, rfl, fun k hk => ⟨testBit_sbi_other _ _ _ hDA hk, rfl⟩⟩

/-- Bits of the first register group left alone by `digitalDirection` on line 0 (`b = 4`) or
line 1 (`b = 7`). -/
theorem digitalDirection_groupB_frame (s : State) (n b : Nat) (d : Direction)
    (h : (n = 0 ∧ b = 4) ∨ (n = 1 ∧ b = 7)) (hDB : s.DDRB < 256) (hPB : s.PORTB < 256) :
    (digitalDirection s n d).DDRA = s.DDRA ∧ (digitalDirection s n d).PORTA = s.PORTA ∧
    (∀ k, k ≠ b →
      (digitalDirection s n d).DDRB.testBit k = s.DDRB.testBit k ∧
      (digitalDirection s n d).PORTB.testBit k = s.PORTB.testBit k) := by
  rcases h with ⟨rfl, rfl⟩ | ⟨rfl, rfl⟩
  · rw [digitalDirection_line0]
    cases d
    · exact ⟨rfl, rfl, fun k hk =>
        ⟨testBit_cbi_other _ _ _ hDB hk, testBit_cbi_other _ _ _ hPB hk⟩⟩
    · exact ⟨rfl, rfl, fun k hk =>
        ⟨testBit_cbi_other _ _ _ hDB hk, testBit_sbi_other _ _ _ hPB hk⟩⟩
    · exact ⟨rfl, rfl, fun k hk => ⟨testBit_sbi_other _ _ _ hDB hk, rfl⟩⟩
  · rw [digitalDirection_line1]
    cases d
    · exact ⟨rfl, rfl, fun k hk =>
        ⟨testBit_cbi_other _ _ _ hDB hk, testBit_cbi_other _ _ _ hPB hk⟩⟩
    · exact ⟨rfl, rfl, fun k hk =>
        ⟨testBit_cbi_other _ _ _ hDB hk, testBit_sbi_other _ _ _ hPB hk⟩⟩
    · exact ⟨rfl, rfl, fun k hk => ⟨testBit_sbi_other _ _ _ hDB hk, rfl⟩⟩

/-! ## Claims -/

/-- C1: `digitalPullups(m)` leaves the pull-up/drive bit of every line 0..9 that is configured
as output unchanged, whatever the mask: if DDRB bit 4 (line 0), DDRB bit 7 (line 1) or DDRA bit
`n-2` (line `n` in 2..9) is 1 before the call, then PORTB bit 4, PORTB bit 7 or PORTA bit `n-2`
has the same value after the call as before. -/
theorem digitalPullups_keeps_output_lines (s : State) (m : Nat) :
    (s.DDRB.testBit 4 = true → (digitalPullups s m).PORTB.testBit 4 = s.PORTB.testBit 4) ∧
    (s.DDRB.testBit 7 = true → (digitalPullups s m).PORTB.testBit 7 = s.PORTB.testBit 7) ∧
    (∀ n, 2 ≤ n → n ≤ 9 → s.DDRA.testBit (n - 2) = true →
      (digitalPullups s m).PORTA.testBit (n - 2) = s.PORTA.testBit (n - 2)) := by
  obtain ⟨-, -, hA, hB⟩ := digitalPullups_spec s m
  refine ⟨fun h => ?_, fun h => ?_, fun n h2 h9 h => ?_⟩
  · rw [hB 4 (by omega)]; simp [h]
  · rw [hB 7 (by omega)]; simp [h]
  · rw [hA (n - 2) (by omega)]; simp [h]

/-- C2 (as amended): `digitalDirections(m)` leaves the direction registers DDRA and DDRB
identical to those reached by the ten sequential calls `digitalDirection(n, d_n)`, `n = 0..9`
(`d_n` OUTPUT when bit `n` of `m` is 1, INPUT when it is 0), and leaves PORTA and PORTB
unchanged; the sequential calls keep the pull-up/drive bit of a line whose mask bit is 1 and
clear that of a line whose mask bit is 0. So (on 8-bit port registers) the two final states
are identical whenever every line whose mask bit is 0 starts with its pull-up bit 0. -/
theorem digitalDirections_vs_sequentialDirections (s : State) (m : Nat) :
    ((digitalDirections s m).DDRA = (sequentialDirections s m).DDRA ∧
     (digitalDirections s m).DDRB = (sequentialDirections s m).DDRB) ∧
    ((digitalDirections s m).PORTA = s.PORTA ∧ (digitalDirections s m).PORTB = s.PORTB) ∧
    ((sequentialDirections s m).PORTB.testBit 4 = (s.PORTB.testBit 4 && m.testBit 0) ∧
     (sequentialDirections s m).PORTB.testBit 7 = (s.PORTB.testBit 7 && m.testBit 1) ∧
     (∀ n, 2 ≤ n → n ≤ 9 → (sequentialDirections s m).PORTA.testBit (n - 2) =
        (s.PORTA.testBit (n - 2) && m.testBit n))) ∧
    (s.PORTA < 256 → s.PORTB < 256 →
      (m.testBit 0 = false → s.PORTB.testBit 4 = false) →
      (m.testBit 1 = false → s.PORTB.testBit 7 = false) →
      (∀ n, 2 ≤ n → n ≤ 9 → m.testBit n = false → s.PORTA.testBit (n - 2) = false) →
      digitalDirections s m = sequentialDirections s m) := by
  obtain ⟨dA, dPA, dPB, dIA, dIB, dB⟩ := digitalDirections_spec s m
  obtain ⟨qA, qB, qPA, qPAmono, qPB, qIA, qIB⟩ := sequentialDirections_spec s m
  have eA : (digitalDirections s m).DDRA = (sequentialDirections s m).DDRA := by
    apply Nat.eq_of_testBit_eq
    intro k
    rw [dA, qA, testBit_mod_256, Nat.testBit_shiftRight, Nat.add_comm]
  have eB : (digitalDirections s m).DDRB = (sequentialDirections s m).DDRB := by
    apply Nat.eq_of_testBit_eq
    intro k
    rw [dB, qB]
    cases h0 : m.testBit 0 <;> cases h1 : m.testBit 1 <;>
      by_cases k4 : k = 4 <;> by_cases k7 : k = 7 <;>
      simp [testBit_sbi, testBit_cbi, k4, k7]
  refine ⟨⟨eA, eB⟩, ⟨dPA, dPB⟩, ⟨?_, ?_, fun n h2 h9 => ?_⟩, fun hA hB c0 c1 cA => ?_⟩
  · rw [qPB]; cases m.testBit 0 <;> simp
  · rw [qPB]; cases m.testBit 1 <;> simp
  · have e : n - 2 + 2 = n := by omega
    rw [qPA (n - 2) (by omega), e]
  · have high : ∀ (r k : Nat), r < 256 → r.testBit k = true → k < 8 := by
      intro r k hr hk
      by_contra hge
      have : r.testBit k = false := by
        apply Nat.testBit_lt_two_pow
        calc r < 2 ^ 8 := by omega
          _ ≤ 2 ^ k := Nat.pow_le_pow_right (by omega) (by omega)
      rw [this] at hk; cases hk
    apply State.ext
    · exact eA
    · exact eB
    · rw [dPA]
      apply Nat.eq_of_testBit_eq
      intro k
      cases hs : s.PORTA.testBit k
      · cases hq : (sequentialDirections s m).PORTA.testBit k
        · rfl
        · rw [qPAmono k hq] at hs; cases hs
      · have k8 := high _ _ hA hs
        rw [qPA k k8, hs]
        cases hm : m.testBit (k + 2)
        · have := cA (k + 2) (by omega) (by omega) hm
          simp only [Nat.add_sub_cancel] at this
          rw [this] at hs; cases hs
        · rfl
    · rw [dPB]
      apply Nat.eq_of_testBit_eq
      intro k
      rw [qPB]
      cases hs : s.PORTB.testBit k
      · simp
      · have k8 := high _ _ hB hs
        by_cases k4 : k = 4
        · subst k4
          cases h0 : m.testBit 0
          · rw [c0 h0] at hs; cases hs
          · simp
        · by_cases k7 : k = 7
          · subst k7
            cases h1 : m.testBit 1
            · rw [c1 h1] at hs; cases hs
            · simp
          · simp [k8, k4, k7]
    · rw [dIA, qIA]
    · rw [dIB, qIB]

theorem digitalDirections_vs_sequentialDirections_witness :
    digitalDirections { DDRA := 0x0F, DDRB := 0x80, PORTA := 0xA9, PORTB := 0x1F } 0x2A5
      = sequentialDirections { DDRA := 0x0F, DDRB := 0x80, PORTA := 0xA9, PORTB := 0x1F } 0x2A5 :=
  (digitalDirections_vs_sequentialDirections
    { DDRA := 0x0F, DDRB := 0x80, PORTA := 0xA9, PORTB := 0x1F } 0x2A5).2.2.2
    (by decide) (by decide) (by decide) (by decide)
    (fun n h2 h9 => by interval_cases n <;> decide)

/-- C2 fails as stated: from a state with pull-ups enabled, `digitalDirections(0)` keeps
PORTA and PORTB, while the ten single-line `INPUT` calls clear them. -/
theorem digitalDirections_differs_from_sequentialDirections :
    ¬ ((digitalDirections { PORTA := 0xFF, PORTB := 0x90 } 0).DDRA
          = (sequentialDirections { PORTA := 0xFF, PORTB := 0x90 } 0).DDRA ∧
       (digitalDirections { PORTA := 0xFF, PORTB := 0x90 } 0).DDRB
          = (sequentialDirections { PORTA := 0xFF, PORTB := 0x90 } 0).DDRB ∧
       (digitalDirections { PORTA := 0xFF, PORTB := 0x90 } 0).PORTA
          = (sequentialDirections { PORTA := 0xFF, PORTB := 0x90 } 0).PORTA ∧
       (digitalDirections { PORTA := 0xFF, PORTB := 0x90 } 0).PORTB
          = (sequentialDirections { PORTA := 0xFF, PORTB := 0x90 } 0).PORTB) := by
  decide

/-- C3: for a 10-bit mask `m`, after `digitalDirections(m)` the direction bit of each line `n`
in 0..9 equals bit `n` of `m`: DDRB bit 4 is bit 0 of `m`, DDRB bit 7 is bit 1 of `m`, and
DDRA is `m >> 2`, so DDRA bit `n-2` is bit `n` of `m` for `n` in 2..9. -/
theorem digitalDirections_readback (s : State) (m : Nat) (hm : m < 1024) :
    (digitalDirections s m).DDRB.testBit 4 = m.testBit 0 ∧
    (digitalDirections s m).DDRB.testBit 7 = m.testBit 1 ∧
    (digitalDirections s m).DDRA = m >>> 2 ∧
    (∀ n, 2 ≤ n → n ≤ 9 → (digitalDirections s m).DDRA.testBit (n - 2) = m.testBit n) := by
  obtain ⟨hA, -, -, -, -, hB⟩ := digitalDirections_spec s m
  have hlt : m >>> 2 < 256 := by
    rw [Nat.shiftRight_eq_div_pow]; omega
  have hA' : (digitalDirections s m).DDRA = m >>> 2 := by
    rw [hA, Nat.mod_eq_of_lt hlt]
  refine ⟨?_, ?_, hA', fun n h2 h9 => ?_⟩
  · rw [hB 4]; simp
  · rw [hB 7]; simp
  · rw [hA', Nat.testBit_shiftRight]
    congr 1; omega

theorem digitalDirections_readback_witness :
    0x2A5 < 1024 ∧
    (digitalDirections { DDRA := 0xFF, DDRB := 0x0F } 0x2A5).DDRB.testBit 4 = true ∧
    (digitalDirections { DDRA := 0xFF, DDRB := 0x0F } 0x2A5).DDRB.testBit 7 = false ∧
    (digitalDirections { DDRA := 0xFF, DDRB := 0x0F } 0x2A5).DDRA = 0xA9 :=
  have h := digitalDirections_readback { DDRA := 0xFF, DDRB := 0x0F } 0x2A5 (by decide)
  ⟨by decide, h.1, h.2.1, h.2.2.1⟩

/-- C4: for a 10-bit mask `m`, `digitalOutputs(m)` followed by `digitalInputs()` returns exactly
`m`, when the pin levels read back are the levels driven by the port registers: `PINA` is
`PORTA`, and `PINB` bits 4 and 7 are `PORTB` bits 4 and 7. -/
theorem digitalOutputs_then_digitalInputs (s : State) (m : Nat) (hm : m < 1024) (pa pb : Nat)
    (hA : pa = (digitalOutputs s m).PORTA)
    (h4 : pb.testBit 4 = (digitalOutputs s m).PORTB.testBit 4)
    (h7 : pb.testBit 7 = (digitalOutputs s m).PORTB.testBit 7) :
    digitalInputs (withPins (digitalOutputs s m) pa pb) = m := by
  have e : (digitalOutputs s m).PORTA = (m >>> 2) % 256 := rfl
  rw [digitalOutputs_PORTB] at h4 h7
  simp only [if_true, Nat.succ_ne_self, if_false] at h4
  have h7' : pb.testBit 7 = m.testBit 1 := by simpa using h7
  apply Nat.eq_of_testBit_eq
  intro k
  rw [digitalInputs_testBit]
  simp only [withPins, h4, h7', hA, e, testBit_mod_256, Nat.testBit_shiftRight]
  by_cases h0 : k = 0
  · subst h0; simp
  · by_cases h1 : k = 1
    · subst h1; simp
    · have hk : 2 + (k - 2) = k := by omega
      rw [if_neg h0, if_neg h1, hk]
      by_cases h10 : k < 10
      · have a : k < 16 := by omega
        have b : k - 2 < 8 := by omega
        simp [a, b]
      · have hf : m.testBit k = false := by
          apply Nat.testBit_lt_two_pow
          calc m < 2 ^ 10 := by omega
            _ ≤ 2 ^ k := Nat.pow_le_pow_right (by omega) (by omega)
        simp [hf]

theorem digitalOutputs_then_digitalInputs_witness :
    0x2A5 < 1024 ∧
    digitalInputs (withPins (digitalOutputs { PORTA := 0x0F, PORTB := 0xFF } 0x2A5) 0xA9 0x13)
      = 0x2A5 :=
  ⟨by decide,
   digitalOutputs_then_digitalInputs { PORTA := 0x0F, PORTB := 0xFF } 0x2A5 (by decide) 0xA9 0x13
     (by decide) (by decide) (by decide)⟩

/-- C5: for a line `n` in 0..9, after `digitalDirection(n, OUTPUT)` then `digitalOutput(n, 1)`,
`digitalInput(n)` returns 1; after a further `digitalOutput(n, 0)`, `digitalInput(n)` returns 0.
The pin level read for an output-configured line is its drive bit: at each read the pin
registers hold levels `pa, pb` (then `pa', pb'`) that follow the outputs. -/
theorem digitalOutput_then_digitalInput (s : State) (n : Nat) (hn : n < 10)
    (pa pb pa' pb' : Nat)
    (h1 : pinsFollowOutputs
      (withPins (digitalOutput (digitalDirection s n .OUTPUT) n 1) pa pb))
    (h2 : pinsFollowOutputs
      (withPins (digitalOutput
        (withPins (digitalOutput (digitalDirection s n .OUTPUT) n 1) pa pb) n 0) pa' pb')) :
    digitalInput (withPins (digitalOutput (digitalDirection s n .OUTPUT) n 1) pa pb) n = 1 ∧
    digitalInput (withPins (digitalOutput
      (withPins (digitalOutput (digitalDirection s n .OUTPUT) n 1) pa pb) n 0) pa' pb') n = 0 := by
  have hdir := digitalDirection_OUTPUT_lineBit s n hn
  obtain ⟨a1, b1, c1⟩ := digitalOutput_lineBit (digitalDirection s n .OUTPUT) n 1 hn
  obtain ⟨a2, b2, c2⟩ := digitalOutput_lineBit
    (withPins (digitalOutput (digitalDirection s n .OUTPUT) n 1) pa pb) n 0 hn
  have d1 : lineBit (withPins (digitalOutput (digitalDirection s n .OUTPUT) n 1) pa pb).DDRA
      (withPins (digitalOutput (digitalDirection s n .OUTPUT) n 1) pa pb).DDRB n = true := by
    simp only [withPins, a1, b1]; exact hdir
  constructor
  · rw [digitalInput_of_output _ n hn d1 h1]
    simp only [withPins] at c1 ⊢
    rw [c1]; rfl
  · have d2 : lineBit (withPins (digitalOutput
        (withPins (digitalOutput (digitalDirection s n .OUTPUT) n 1) pa pb) n 0) pa' pb').DDRA
        (withPins (digitalOutput
        (withPins (digitalOutput (digitalDirection s n .OUTPUT) n 1) pa pb) n 0) pa' pb').DDRB n
        = true := by
      show lineBit (digitalOutput _ n 0).DDRA (digitalOutput _ n 0).DDRB n = true
      rw [a2, b2]; exact d1
    rw [digitalInput_of_output _ n hn d2 h2]
    show (lineBit (digitalOutput _ n 0).PORTA (digitalOutput _ n 0).PORTB n).toNat = 0
    rw [c2]; rfl

theorem digitalOutput_then_digitalInput_witness :
    3 < 10 ∧
    digitalInput (withPins (digitalOutput (digitalDirection { PINA := 0xF0 } 3 .OUTPUT) 3 1)
      0xF2 0) 3 = 1 ∧
    digitalInput (withPins (digitalOutput
      (withPins (digitalOutput (digitalDirection { PINA := 0xF0 } 3 .OUTPUT) 3 1) 0xF2 0) 3 0)
      0xF0 0) 3 = 0 :=
  ⟨by decide,
   digitalOutput_then_digitalInput { PINA := 0xF0 } 3 (by decide) 0xF2 0 0xF0 0
     (by decide) (by decide)⟩

/-- C6: for a line `n` in 0..9, `digitalDirection(n, OUTPUT)` sets the direction bit of the
line (DDRB bit 4 for line 0, DDRB bit 7 for line 1, DDRA bit `n-2` for lines 2..9) and
leaves PORTA and PORTB as they were. -/
theorem digitalDirection_OUTPUT_sets_direction_keeps_ports (s : State) (n : Nat) (hn : n < 10) :
    (n = 0 → (digitalDirection s n .OUTPUT).DDRB.testBit 4 = true) ∧
    (n = 1 → (digitalDirection s n .OUTPUT).DDRB.testBit 7 = true) ∧
    (2 ≤ n → (digitalDirection s n .OUTPUT).DDRA.testBit (n - 2) = true) ∧
    (digitalDirection s n .OUTPUT).PORTA = s.PORTA ∧
    (digitalDirection s n .OUTPUT).PORTB = s.PORTB := by
  rcases Nat.lt_or_ge n 2 with hlt | hge
  · rcases Nat.lt_or_ge n 1 with h0 | h1
    · have : n = 0 := by omega
      subst this
      simp [digitalDirection_line0, testBit_sbi]
    · have : n = 1 := by omega
      subst this
      simp [digitalDirection_line1, testBit_sbi]
  · have hk : n - 2 < 8 := by omega
    have h0 : n ≠ 0 := by omega
    have h1 : n ≠ 1 := by omega
    simp [digitalDirection_groupA s n _ hge (by omega), testBit_sbi, hk, h0, h1]

theorem digitalDirection_OUTPUT_sets_direction_keeps_ports_witness :
    3 < 10 ∧
    (digitalDirection { PORTA := 0x55, PORTB := 0x90 } 3 .OUTPUT).DDRA.testBit (3 - 2) = true ∧
    (digitalDirection { PORTA := 0x55, PORTB := 0x90 } 3 .OUTPUT).PORTA = 0x55 ∧
    (digitalDirection { PORTA := 0x55, PORTB := 0x90 } 3 .OUTPUT).PORTB = 0x90 :=
  have h := digitalDirection_OUTPUT_sets_direction_keeps_ports
    { PORTA := 0x55, PORTB := 0x90 } 3 (by decide)
  ⟨by decide, h.2.2.1 (by decide), h.2.2.2⟩

/-- C7: for a line `n` in 0..9, `digitalDirection(n, INPUT)` leaves the direction bit of the
line 0 and its pull-up bit 0, and `digitalDirection(n, INPUT_PULLUP)` leaves the direction
bit 0 and the pull-up bit 1; line 0 is bit 4 of DDRB/PORTB, line 1 bit 7 of DDRB/PORTB and
line `n` in 2..9 bit `n-2` of DDRA/PORTA. -/
theorem digitalDirection_INPUT_manages_pullup (s : State) (n : Nat) (hn : n < 10) :
    (n = 0 →
      (digitalDirection s n .INPUT).DDRB.testBit 4 = false ∧
      (digitalDirection s n .INPUT).PORTB.testBit 4 = false ∧
      (digitalDirection s n .INPUT_PULLUP).DDRB.testBit 4 = false ∧
      (digitalDirection s n .INPUT_PULLUP).PORTB.testBit 4 = true) ∧
    (n = 1 →
      (digitalDirection s n .INPUT).DDRB.testBit 7 = false ∧
      (digitalDirection s n .INPUT).PORTB.testBit 7 = false ∧
      (digitalDirection s n .INPUT_PULLUP).DDRB.testBit 7 = false ∧
      (digitalDirection s n .INPUT_PULLUP).PORTB.testBit 7 = true) ∧
    (2 ≤ n →
      (digitalDirection s n .INPUT).DDRA.testBit (n - 2) = false ∧
      (digitalDirection s n .INPUT).PORTA.testBit (n - 2) = false ∧
      (digitalDirection s n .INPUT_PULLUP).DDRA.testBit (n - 2) = false ∧
      (digitalDirection s n .INPUT_PULLUP).PORTA.testBit (n - 2) = true) := by
  rcases Nat.lt_or_ge n 2 with hlt | hge
  · rcases Nat.lt_or_ge n 1 with h0 | h1
    · have : n = 0 := by omega
      subst this
      simp [digitalDirection_line0, testBit_sbi, testBit_cbi]
    · have : n = 1 := by omega
      subst this
      simp [digitalDirection_line1, testBit_sbi, testBit_cbi]
  · have hk : n - 2 < 8 := by omega
    have h0 : n ≠ 0 := by omega
    have h1 : n ≠ 1 := by omega
    simp [digitalDirection_groupA s n _ hge (by omega), testBit_sbi, testBit_cbi, hk, h0, h1]

theorem digitalDirection_INPUT_manages_pullup_witness :
    1 < 10 ∧
    (digitalDirection { DDRB := 0xFF, PORTB := 0x80 } 1 .INPUT).DDRB.testBit 7 = false ∧
    (digitalDirection { DDRB := 0xFF, PORTB := 0x80 } 1 .INPUT).PORTB.testBit 7 = false ∧
    (digitalDirection { DDRB := 0xFF, PORTB := 0x80 } 1 .INPUT_PULLUP).DDRB.testBit 7 = false ∧
    (digitalDirection { DDRB := 0xFF, PORTB := 0x80 } 1 .INPUT_PULLUP).PORTB.testBit 7 = true :=
  have h := digitalDirection_INPUT_manages_pullup { DDRB := 0xFF, PORTB := 0x80 } 1 (by decide)
  ⟨by decide, h.2.1 rfl⟩

/-- C8: after `digitalPullups(m)` every line `n` in 0..9 configured as input (direction bit 0)
has its pull-up bit equal to bit `n` of `m` (PORTB bit 4 for line 0, PORTB bit 7 for line 1,
PORTA bit `n-2` for lines 2..9). In particular, after `digitalDirections(0x000)` then
`digitalPullups(0x3FF)` all ten pull-up bits are 1, and after a further
`digitalDirection(5, OUTPUT)` then `digitalPullups(0x000)` the pull-up bit of line 5 is still 1
and those of the nine other lines are 0. -/
theorem digitalPullups_sets_input_lines (s : State) (m : Nat) :
    ((s.DDRB.testBit 4 = false → (digitalPullups s m).PORTB.testBit 4 = m.testBit 0) ∧
     (s.DDRB.testBit 7 = false → (digitalPullups s m).PORTB.testBit 7 = m.testBit 1) ∧
     (∀ n, 2 ≤ n → n ≤ 9 → s.DDRA.testBit (n - 2) = false →
        (digitalPullups s m).PORTA.testBit (n - 2) = m.testBit n)) ∧
    ((scenarioAllPullups s).PORTB.testBit 4 = true ∧
     (scenarioAllPullups s).PORTB.testBit 7 = true ∧
     (∀ n, 2 ≤ n → n ≤ 9 → (scenarioAllPullups s).PORTA.testBit (n - 2) = true)) ∧
    ((scenarioLine5Output s).PORTA.testBit (5 - 2) = true ∧
     (scenarioLine5Output s).PORTB.testBit 4 = false ∧
     (scenarioLine5Output s).PORTB.testBit 7 = false ∧
     (∀ n, 2 ≤ n → n ≤ 9 → n ≠ 5 → (scenarioLine5Output s).PORTA.testBit (n - 2) = false)) := by
  have gen : ∀ (t : State) (p : Nat),
      (t.DDRB.testBit 4 = false → (digitalPullups t p).PORTB.testBit 4 = p.testBit 0) ∧
      (t.DDRB.testBit 7 = false → (digitalPullups t p).PORTB.testBit 7 = p.testBit 1) ∧
      (∀ n, 2 ≤ n → n ≤ 9 → t.DDRA.testBit (n - 2) = false →
        (digitalPullups t p).PORTA.testBit (n - 2) = p.testBit n) := by
    intro t p
    obtain ⟨-, -, hA, hB⟩ := digitalPullups_spec t p
    refine ⟨fun h => ?_, fun h => ?_, fun n h2 h9 h => ?_⟩
    · rw [hB 4 (by omega)]; simp [h]
    · rw [hB 7 (by omega)]; simp [h]
    · rw [hA (n - 2) (by omega)]
      have : n - 2 + 2 = n := by omega
      simp [h, this]
  -- state after `digitalDirections(0x000)`: every line is an input
  obtain ⟨dA, -, -, -, -, dB⟩ := digitalDirections_spec s 0
  have d4 : (digitalDirections s 0).DDRB.testBit 4 = false := by rw [dB 4]; simp
  have d7 : (digitalDirections s 0).DDRB.testBit 7 = false := by rw [dB 7]; simp
  have dA0 : (digitalDirections s 0).DDRA = 0 := by rw [dA]; rfl
  have ones : ∀ n, n ≤ 9 → Nat.testBit 0x3FF n = true := by
    intro n hn; interval_cases n <;> decide
  obtain ⟨g4, g7, gA⟩ := gen (digitalDirections s 0) 0x3FF
  have a4 : (scenarioAllPullups s).PORTB.testBit 4 = true := by
    rw [scenarioAllPullups, g4 d4]; decide
  have a7 : (scenarioAllPullups s).PORTB.testBit 7 = true := by
    rw [scenarioAllPullups, g7 d7]; decide
  have aA : ∀ n, 2 ≤ n → n ≤ 9 → (scenarioAllPullups s).PORTA.testBit (n - 2) = true := by
    intro n h2 h9
    rw [scenarioAllPullups, gA n h2 h9 (by rw [dA0]; simp)]
    exact ones n h9
  -- directions after the first half are those set by `digitalDirections(0x000)`
  obtain ⟨pA, pB, -, -⟩ := digitalPullups_spec (digitalDirections s 0) 0x3FF
  have sA : (scenarioAllPullups s).DDRA = 0 := by rw [scenarioAllPullups, pA, dA0]
  have sB : (scenarioAllPullups s).DDRB = (digitalDirections s 0).DDRB := by
    rw [scenarioAllPullups, pB]
  -- line 5 becomes an output
  have e5 := digitalDirection_groupA (scenarioAllPullups s) 5 .OUTPUT (by omega) (by omega)
  simp only [] at e5
  have oA : ∀ k, (digitalDirection (scenarioAllPullups s) 5 .OUTPUT).DDRA.testBit k
      = decide (k = 3) := by
    intro k
    rw [e5]
    simp only [testBit_sbi, sA, Nat.zero_testBit, Bool.false_or]
    by_cases hk : k = 3
    · subst hk; decide
    · simp [hk]
  have oB : (digitalDirection (scenarioAllPullups s) 5 .OUTPUT).DDRB
      = (digitalDirections s 0).DDRB := by rw [e5, ← sB]
  have oPA : (digitalDirection (scenarioAllPullups s) 5 .OUTPUT).PORTA
      = (scenarioAllPullups s).PORTA := by rw [e5]
  obtain ⟨-, -, qA, -⟩ :=
    digitalPullups_spec (digitalDirection (scenarioAllPullups s) 5 .OUTPUT) 0
  obtain ⟨r4, r7, rA⟩ := gen (digitalDirection (scenarioAllPullups s) 5 .OUTPUT) 0
  refine ⟨gen s m, ⟨a4, a7, aA⟩, ?_, ?_, ?_, ?_⟩
  · rw [scenarioLine5Output, qA 3 (by omega), oA 3, oPA]
    simpa using aA 5 (by omega) (by omega)
  · rw [scenarioLine5Output, r4 (by rw [oB]; exact d4)]; simp
  · rw [scenarioLine5Output, r7 (by rw [oB]; exact d7)]; simp
  · intro n h2 h9 h5
    have hn : ¬ n - 2 = 3 := by omega
    rw [scenarioLine5Output, rA n h2 h9 (by rw [oA]; simp [hn])]; simp

/-- C9: after `digitalOutputs(m)`, PORTA equals bits 2..9 of `m`, that is `(m >> 2) mod 256`,
PORTB bit 4 equals bit 0 of `m`, PORTB bit 7 equals bit 1 of `m`, and every other bit of
PORTB (bits 0, 1, 2, 3, 5, 6) has the value it had before the call. -/
theorem digitalOutputs_ports (s : State) (m : Nat) :
    (digitalOutputs s m).PORTA = (m >>> 2) % 256 ∧
    (digitalOutputs s m).PORTB.testBit 4 = m.testBit 0 ∧
    (digitalOutputs s m).PORTB.testBit 7 = m.testBit 1 ∧
    (∀ k, k ∈ [0, 1, 2, 3, 5, 6] →
      (digitalOutputs s m).PORTB.testBit k = s.PORTB.testBit k) := by
  refine ⟨rfl, ?_, ?_, fun k hk => ?_⟩
  · rw [digitalOutputs_PORTB]; simp
  · rw [digitalOutputs_PORTB]; simp
  · rw [digitalOutputs_PORTB]
    have h8 : k < 8 := by
      simp only [List.mem_cons, List.mem_singleton, List.not_mem_nil, or_false] at hk; omega
    have h4 : k ≠ 4 := by
      rintro rfl; simp at hk
    have h7 : k ≠ 7 := by
      rintro rfl; simp at hk
    simp [h4, h7, h8]

/-- C10: `digitalInputs()` returns a 10-bit value (below 1024) whose bit `n` equals
`digitalInput(n)` for every line `n` in 0..9: bit 0 is PINB bit 4, bit 1 is PINB bit 7 and bits
2..9 are PINA bits 0..7, the bit ordering `digitalOutputs` uses for writing. `PINA` is an 8-bit
register. -/
theorem digitalInputs_matches_digitalInput (s : State) (hA : s.PINA < 256) :
    digitalInputs s < 1024 ∧
    (∀ n, n ≤ 9 → digitalInput s n = ((digitalInputs s).testBit n).toNat) ∧
    (digitalInputs s).testBit 0 = s.PINB.testBit 4 ∧
    (digitalInputs s).testBit 1 = s.PINB.testBit 7 ∧
    (∀ n, 2 ≤ n → n ≤ 9 → (digitalInputs s).testBit n = s.PINA.testBit (n - 2)) ∧
    (∀ t m, (digitalOutputs t m).PORTB.testBit 4 = m.testBit 0 ∧
      (digitalOutputs t m).PORTB.testBit 7 = m.testBit 1 ∧
      (∀ n, 2 ≤ n → n ≤ 9 → (digitalOutputs t m).PORTA.testBit (n - 2) = m.testBit n)) := by
  refine ⟨?_, fun n hn => ?_, ?_, ?_, fun n h2 h9 => ?_, fun t m => ⟨?_, ?_, fun n h2 h9 => ?_⟩⟩
  · have h : (1024 : Nat) = 2 ^ 10 := by norm_num
    rw [h]
    apply Nat.lt_pow_two_of_testBit
    intro i hi
    rw [digitalInputs_testBit]
    have h0 : i ≠ 0 := by omega
    have h1 : i ≠ 1 := by omega
    have hbit : s.PINA.testBit (i - 2) = false := by
      apply Nat.testBit_lt_two_pow
      calc s.PINA < 2 ^ 8 := by omega
        _ ≤ 2 ^ (i - 2) := Nat.pow_le_pow_right (by omega) (by omega)
    simp [h0, h1, hbit]
  · rw [digitalInput_eq s n (by omega), digitalInputs_testBit]
    have : n < 16 := by omega
    simp [this]
  · rw [digitalInputs_testBit]; simp
  · rw [digitalInputs_testBit]; simp
  · rw [digitalInputs_testBit]
    have h0 : n ≠ 0 := by omega
    have h1 : n ≠ 1 := by omega
    have : n < 16 := by omega
    simp [h0, h1, this]
  · rw [digitalOutputs_PORTB]; simp
  · rw [digitalOutputs_PORTB]; simp
  · have e : (digitalOutputs t m).PORTA = (m >>> 2) % 256 := rfl
    have hk : n - 2 < 8 := by omega
    have hn : 2 + (n - 2) = n := by omega
    rw [e, testBit_mod_256, Nat.testBit_shiftRight, hn]
    simp [hk]

theorem digitalInputs_matches_digitalInput_witness :
    (0xA5 : Nat) < 256 ∧
    digitalInputs { PINA := 0xA5, PINB := 0x80 } < 1024 ∧
    digitalInput { PINA := 0xA5, PINB := 0x80 } 1
      = ((digitalInputs { PINA := 0xA5, PINB := 0x80 }).testBit 1).toNat :=
  have h := digitalInputs_matches_digitalInput { PINA := 0xA5, PINB := 0x80 } (by decide)
  ⟨by decide, h.1, h.2.1 1 (by decide)⟩

/-- C11: for a line `n` in 0..9, every value `v` and every board state (8-bit registers), after
`digitalOutput(n, v)` the output-drive bit of the line (PORTB bit 4 for line 0, PORTB bit 7 for
line 1, PORTA bit `n-2` for lines 2..9) is 1 if `v > 0` and 0 if `v = 0`, every other bit of
PORTA and PORTB is unchanged, and DDRA and DDRB are unchanged; the direction of the line is
not consulted. -/
theorem digitalOutput_sets_only_drive_bit (s : State) (n v : Nat) (hn : n < 10)
    (h8 : eightBit s) :
    (digitalOutput s n v).DDRA = s.DDRA ∧ (digitalOutput s n v).DDRB = s.DDRB ∧
    (n = 0 →
      (digitalOutput s n v).PORTB.testBit 4 = decide (v > 0) ∧
      (∀ k, k ≠ 4 → (digitalOutput s n v).PORTB.testBit k = s.PORTB.testBit k) ∧
      (digitalOutput s n v).PORTA = s.PORTA) ∧
    (n = 1 →
      (digitalOutput s n v).PORTB.testBit 7 = decide (v > 0) ∧
      (∀ k, k ≠ 7 → (digitalOutput s n v).PORTB.testBit k = s.PORTB.testBit k) ∧
      (digitalOutput s n v).PORTA = s.PORTA) ∧
    (2 ≤ n →
      (digitalOutput s n v).PORTA.testBit (n - 2) = decide (v > 0) ∧
      (∀ k, k ≠ n - 2 → (digitalOutput s n v).PORTA.testBit k = s.PORTA.testBit k) ∧
      (digitalOutput s n v).PORTB = s.PORTB) := by
  obtain ⟨-, -, hA, hB, -, -⟩ := h8
  refine ⟨?_, ?_, ?_, ?_, ?_⟩
  · unfold digitalOutput; split_ifs <;> rfl
  · unfold digitalOutput; split_ifs <;> rfl
  · rintro rfl
    rw [digitalOutput_line0]
    by_cases hv : v > 0
    · rw [if_pos hv]
      refine ⟨by simp [testBit_sbi, hv], fun k hk => ?_, rfl⟩
      simp [testBit_sbi_of_lt _ _ _ hB, hk]
    · rw [if_neg hv]
      refine ⟨by simp [testBit_cbi, hv], fun k hk => ?_, rfl⟩
      simp [testBit_cbi_of_lt _ _ _ hB, hk]
  · rintro rfl
    rw [digitalOutput_line1]
    by_cases hv : v > 0
    · rw [if_pos hv]
      refine ⟨by simp [testBit_sbi, hv], fun k hk => ?_, rfl⟩
      simp [testBit_sbi_of_lt _ _ _ hB, hk]
    · rw [if_neg hv]
      refine ⟨by simp [testBit_cbi, hv], fun k hk => ?_, rfl⟩
      simp [testBit_cbi_of_lt _ _ _ hB, hk]
  · intro h2
    have hk8 : n - 2 < 8 := by omega
    rw [digitalOutput_groupA s n v h2]
    by_cases hv : v > 0
    · rw [if_pos hv]
      refine ⟨by simp [testBit_sbi, hv, hk8], fun k hk => ?_, rfl⟩
      simp [testBit_sbi_of_lt _ _ _ hA, hk]
    · rw [if_neg hv]
      refine ⟨by simp [testBit_cbi, hv], fun k hk => ?_, rfl⟩
      simp [testBit_cbi_of_lt _ _ _ hA, hk]

theorem digitalOutput_sets_only_drive_bit_witness :
    6 < 10 ∧ eightBit { DDRA := 0x0F, PORTA := 0xC3, PORTB := 0x90 } ∧
    (digitalOutput { DDRA := 0x0F, PORTA := 0xC3, PORTB := 0x90 } 6 1).PORTA.testBit (6 - 2)
      = decide (1 > 0) ∧
    (digitalOutput { DDRA := 0x0F, PORTA := 0xC3, PORTB := 0x90 } 6 1).PORTB = 0x90 :=
  have h := digitalOutput_sets_only_drive_bit { DDRA := 0x0F, PORTA := 0xC3, PORTB := 0x90 } 6 1
    (by decide) (by decide)
  ⟨by decide, by decide, (h.2.2.2.2 (by decide)).1, (h.2.2.2.2 (by decide)).2.2⟩

/-- C12: for a line `n` in 0..9, `digitalOutputToggle(n)` (a store of a single 1 bit into
PINA/PINB, applied by the hardware as an exclusive or onto PORTA/PORTB) flips exactly the
output-drive bit of the line and leaves every other bit of PORTA and PORTB unchanged. So for an
output-configured line whose pin level follows its drive bit, `digitalInput(n)` after the toggle
is the negation of `digitalInput(n)` before it; for instance after `digitalDirection(3, OUTPUT)`,
`digitalOutput(3, 1)`, `digitalOutputToggle(3)` the call `digitalInput(3)` returns 0. -/
theorem digitalOutputToggle_flips_drive_bit (s : State) (n : Nat) (hn : n < 10) :
    (n = 0 →
      (digitalOutputToggle s n).PORTB.testBit 4 = !s.PORTB.testBit 4 ∧
      (∀ k, k ≠ 4 → (digitalOutputToggle s n).PORTB.testBit k = s.PORTB.testBit k) ∧
      (digitalOutputToggle s n).PORTA = s.PORTA) ∧
    (n = 1 →
      (digitalOutputToggle s n).PORTB.testBit 7 = !s.PORTB.testBit 7 ∧
      (∀ k, k ≠ 7 → (digitalOutputToggle s n).PORTB.testBit k = s.PORTB.testBit k) ∧
      (digitalOutputToggle s n).PORTA = s.PORTA) ∧
    (2 ≤ n →
      (digitalOutputToggle s n).PORTA.testBit (n - 2) = !s.PORTA.testBit (n - 2) ∧
      (∀ k, k ≠ n - 2 → (digitalOutputToggle s n).PORTA.testBit k = s.PORTA.testBit k) ∧
      (digitalOutputToggle s n).PORTB = s.PORTB) ∧
    (∀ pa pb pa' pb', lineBit s.DDRA s.DDRB n = true →
      pinsFollowOutputs (withPins s pa pb) →
      pinsFollowOutputs (withPins (digitalOutputToggle (withPins s pa pb) n) pa' pb') →
      digitalInput (withPins (digitalOutputToggle (withPins s pa pb) n) pa' pb') n
        = 1 - digitalInput (withPins s pa pb) n) ∧
    (∀ pa pb pa' pb',
      pinsFollowOutputs (withPins (digitalOutput (digitalDirection s 3 .OUTPUT) 3 1) pa pb) →
      pinsFollowOutputs (withPins (digitalOutputToggle
        (withPins (digitalOutput (digitalDirection s 3 .OUTPUT) 3 1) pa pb) 3) pa' pb') →
      digitalInput (withPins (digitalOutput (digitalDirection s 3 .OUTPUT) 3 1) pa pb) 3 = 1 ∧
      digitalInput (withPins (digitalOutputToggle
        (withPins (digitalOutput (digitalDirection s 3 .OUTPUT) 3 1) pa pb) 3) pa' pb') 3 = 0) := by
  -- reading an output line before and after a toggle, for any state and line
  have reading : ∀ (t : State) (j pa' pb' : Nat), j < 10 → lineBit t.DDRA t.DDRB j = true →
      pinsFollowOutputs t →
      pinsFollowOutputs (withPins (digitalOutputToggle t j) pa' pb') →
      digitalInput (withPins (digitalOutputToggle t j) pa' pb') j = 1 - digitalInput t j := by
    intro t j pa' pb' hj hd hf hf'
    obtain ⟨tA, tB, -, -, tPA, tPB⟩ := digitalOutputToggle_spec t j hj
    have hd' : lineBit (withPins (digitalOutputToggle t j) pa' pb').DDRA
        (withPins (digitalOutputToggle t j) pa' pb').DDRB j = true := by
      show lineBit (digitalOutputToggle t j).DDRA (digitalOutputToggle t j).DDRB j = true
      rw [tA, tB]; exact hd
    rw [digitalInput_of_output _ j hj hd' hf', digitalInput_of_output _ j hj hd hf]
    have flip : lineBit (digitalOutputToggle t j).PORTA (digitalOutputToggle t j).PORTB j
        = !lineBit t.PORTA t.PORTB j := by
      unfold lineBit
      by_cases h0 : j = 0
      · subst h0; simp [tPB]
      · by_cases h1 : j = 1
        · subst h1; simp [tPB]
        · have h2 : 2 ≤ j := by omega
          simp [h0, h1, tPA, h2]
    show (lineBit (digitalOutputToggle t j).PORTA (digitalOutputToggle t j).PORTB j).toNat = _
    rw [flip]
    cases lineBit t.PORTA t.PORTB j <;> rfl
  obtain ⟨-, -, -, -, hPA, hPB⟩ := digitalOutputToggle_spec s n hn
  refine ⟨?_, ?_, ?_, ?_, ?_⟩
  · rintro rfl
    refine ⟨by simp [hPB], fun k hk => by simp [hPB, hk], ?_⟩
    exact Nat.eq_of_testBit_eq fun k => by simp [hPA]
  · rintro rfl
    refine ⟨by simp [hPB], fun k hk => by simp [hPB, hk], ?_⟩
    exact Nat.eq_of_testBit_eq fun k => by simp [hPA]
  · intro h2
    have h0 : n ≠ 0 := by omega
    have h1 : n ≠ 1 := by omega
    refine ⟨by simp [hPA, h2], fun k hk => by simp [hPA, hk], ?_⟩
    exact Nat.eq_of_testBit_eq fun k => by simp [hPB, h0, h1]
  · intro pa pb pa' pb' hd hf hf'
    exact reading (withPins s pa pb) n pa' pb' hn hd hf hf'
  · intro pa pb pa' pb' hf hf'
    have hdir := digitalDirection_OUTPUT_lineBit s 3 (by omega)
    obtain ⟨a1, b1, c1⟩ := digitalOutput_lineBit (digitalDirection s 3 .OUTPUT) 3 1 (by omega)
    have d1 : lineBit (withPins (digitalOutput (digitalDirection s 3 .OUTPUT) 3 1) pa pb).DDRA
        (withPins (digitalOutput (digitalDirection s 3 .OUTPUT) 3 1) pa pb).DDRB 3 = true := by
      simp only [withPins, a1, b1]; exact hdir
    have r1 : digitalInput
        (withPins (digitalOutput (digitalDirection s 3 .OUTPUT) 3 1) pa pb) 3 = 1 := by
      rw [digitalInput_of_output _ 3 (by omega) d1 hf]
      simp only [withPins] at c1 ⊢
      rw [c1]; rfl
    refine ⟨r1, ?_⟩
    rw [reading _ 3 pa' pb' (by omega) d1 hf hf', r1]

theorem digitalOutputToggle_flips_drive_bit_witness :
    3 < 10 ∧
    (digitalOutputToggle { DDRA := 0x02, PORTA := 0x02, PORTB := 0x90 } 3).PORTA.testBit (3 - 2)
      = false ∧
    (digitalOutputToggle { DDRA := 0x02, PORTA := 0x02, PORTB := 0x90 } 3).PORTB = 0x90 ∧
    digitalInput (withPins (digitalOutputToggle
      (withPins { DDRA := 0x02, PORTA := 0x02, PORTB := 0x90 } 0x02 0) 3) 0x00 0) 3
        = 1 - digitalInput (withPins { DDRA := 0x02, PORTA := 0x02, PORTB := 0x90 } 0x02 0) 3 :=
  have h := digitalOutputToggle_flips_drive_bit { DDRA := 0x02, PORTA := 0x02, PORTB := 0x90 } 3
    (by decide)
  ⟨by decide, (h.2.2.1 (by decide)).1, (h.2.2.1 (by decide)).2.2,
   h.2.2.2.1 0x02 0 0x00 0 (by decide) (by decide) (by decide)⟩

/-- C13: applying `digitalOutputToggle(n)` twice in succession restores the original
output-drive bit of line `n`, and the whole of PORTA and PORTB with every other register:
the toggle is an involution. -/
theorem digitalOutputToggle_twice (s : State) (n : Nat) :
    digitalOutputToggle (digitalOutputToggle s n) n = s ∧
    (digitalOutputToggle (digitalOutputToggle s n) n).PORTA = s.PORTA ∧
    (digitalOutputToggle (digitalOutputToggle s n) n).PORTB = s.PORTB ∧
    lineBit (digitalOutputToggle (digitalOutputToggle s n) n).PORTA
      (digitalOutputToggle (digitalOutputToggle s n) n).PORTB n = lineBit s.PORTA s.PORTB n := by
  have h : digitalOutputToggle (digitalOutputToggle s n) n = s := by
    rw [digitalOutputToggle_eq, digitalOutputToggle_eq]
    by_cases h0 : n = 0
    · simp only [h0, if_true, Nat.xor_assoc, Nat.xor_self, Nat.xor_zero]
    · by_cases h1 : n = 1
      · simp only [h1, if_true, Nat.one_ne_zero, if_false, Nat.xor_assoc, Nat.xor_self,
          Nat.xor_zero]
      · simp only [h0, h1, if_false, Nat.xor_assoc, Nat.xor_self, Nat.xor_zero]
  exact ⟨h, by rw [h], by rw [h], by rw [h]⟩

/-- C14: board initialisation (`initialize()`) is idempotent on the board registers when the
peripheral initializers are absent or no-ops on them: running it twice leaves every register in
the same state as running it once, namely DDRD bit 4 = 0, PORTD bit 4 = 1, DDRG bit 2 = 1,
DDRD bit 5 = 1, DDRC = 0xFF, and all other bits (of the 8-bit registers DDRD, PORTD, DDRG, and
every other register) as before the first call. -/
theorem initializeBoard_idempotent (cfg : Config) (per : Peripherals) (b : Board)
    (h : enabledAreNoOps cfg per)
    (hD : b.DDRD < 256) (hP : b.PORTD < 256) (hG : b.DDRG < 256) :
    initializeBoard cfg per (initializeBoard cfg per b) = initializeBoard cfg per b ∧
    (initializeBoard cfg per b).DDRD.testBit 4 = false ∧
    (initializeBoard cfg per b).PORTD.testBit 4 = true ∧
    (initializeBoard cfg per b).DDRG.testBit 2 = true ∧
    (initializeBoard cfg per b).DDRD.testBit 5 = true ∧
    (initializeBoard cfg per b).DDRC = 0xFF ∧
    (∀ k, k ≠ 4 → k ≠ 5 → (initializeBoard cfg per b).DDRD.testBit k = b.DDRD.testBit k) ∧
    (∀ k, k ≠ 4 → (initializeBoard cfg per b).PORTD.testBit k = b.PORTD.testBit k) ∧
    (∀ k, k ≠ 2 → (initializeBoard cfg per b).DDRG.testBit k = b.DDRG.testBit k) ∧
    (initializeBoard cfg per b).toState = b.toState ∧
    (initializeBoard cfg per b).PIND = b.PIND ∧
    (initializeBoard cfg per b).PORTG = b.PORTG := by
  refine ⟨?_, ?_, ?_, ?_, ?_, ?_, ?_, ?_, ?_, ?_, ?_, ?_⟩
  · rw [initializeBoard_eq cfg per _ h, initializeBoard_eq cfg per b h]
    simp only [sbi_idem, sbi_cbi_idem]
  all_goals rw [initializeBoard_eq cfg per b h]
  · simp [testBit_sbi, testBit_cbi]
  · simp [testBit_sbi]
  · simp [testBit_sbi]
  · simp [testBit_sbi]
  · intro k h4 h5
    have hc : cbi b.DDRD 4 < 256 := cbi_lt _ _
    simp [testBit_sbi_of_lt _ _ _ hc, testBit_cbi_of_lt _ _ _ hD, h4, h5]
  · intro k h4
    simp [testBit_sbi_of_lt _ _ _ hP, h4]
  · intro k h2
    simp [testBit_sbi_of_lt _ _ _ hG, h2]

theorem initializeBoard_idempotent_witness :
    initializeBoard { USE_LCD := 1 } ⟨id, id, id, id, id, id, id, id⟩
        (initializeBoard { USE_LCD := 1 } ⟨id, id, id, id, id, id, id, id⟩
          { DDRD := 0x10, PORTD := 0x03, DDRG := 0x01 })
      = initializeBoard { USE_LCD := 1 } ⟨id, id, id, id, id, id, id, id⟩
          { DDRD := 0x10, PORTD := 0x03, DDRG := 0x01 } ∧
    (initializeBoard { USE_LCD := 1 } ⟨id, id, id, id, id, id, id, id⟩
      { DDRD := 0x10, PORTD := 0x03, DDRG := 0x01 }).DDRD = 0x20 ∧
    (initializeBoard { USE_LCD := 1 } ⟨id, id, id, id, id, id, id, id⟩
      { DDRD := 0x10, PORTD := 0x03, DDRG := 0x01 }).PORTD = 0x13 :=
  have h := initializeBoard_idempotent { USE_LCD := 1 } ⟨id, id, id, id, id, id, id, id⟩
    { DDRD := 0x10, PORTD := 0x03, DDRG := 0x01 }
    ⟨fun _ _ => rfl, fun _ _ => rfl, fun _ _ => rfl, fun _ _ => rfl, fun _ _ => rfl,
     fun _ _ => rfl, fun _ _ => rfl, fun _ _ => rfl⟩
    (by decide) (by decide) (by decide)
  ⟨h.1, by decide, by decide⟩

/-- C15: each bulk operation uses only the lower 10 bits of its argument: `digitalDirections(m)`,
`digitalPullups(m)` and `digitalOutputs(m)` each produce the same board state as the same call
with `m AND 0x3FF`, and bit 0 (LSB) of the argument addresses line 0, bit 9 line 9: bit `n`
goes to the direction bit, the pull-up bit (of an input line) and the drive bit of line `n`. -/
theorem bulk_operations_use_lower_ten_bits (s : State) (m : Nat) :
    digitalDirections s m = digitalDirections s (m &&& 0x3FF) ∧
    digitalPullups s m = digitalPullups s (m &&& 0x3FF) ∧
    digitalOutputs s m = digitalOutputs s (m &&& 0x3FF) ∧
    (∀ n, n ≤ 9 →
      lineBit (digitalDirections s m).DDRA (digitalDirections s m).DDRB n = m.testBit n) ∧
    (∀ n, n ≤ 9 → lineBit s.DDRA s.DDRB n = false →
      lineBit (digitalPullups s m).PORTA (digitalPullups s m).PORTB n = m.testBit n) ∧
    (∀ n, n ≤ 9 →
      lineBit (digitalOutputs s m).PORTA (digitalOutputs s m).PORTB n = m.testBit n) := by
  refine ⟨?_, ?_, ?_, fun n hn => digitalDirections_lineBit s m n hn,
    fun n hn hd => digitalPullups_lineBit s m n hn hd,
    fun n hn => digitalOutputs_lineBit s m n hn⟩
  · simp only [digitalDirections, and_1023_low, and_1023_high]
  · simp only [digitalPullups, gbi_and_1023 m 0 (by omega), gbi_and_1023 m 1 (by omega),
      and_1023_high]
  · simp only [digitalOutputs, and_1023_low, and_1023_high]

/-- C16: `getButton1()` returns 1 exactly when bit 4 of PIND is 0 (button pressed, active low)
and 0 exactly when bit 4 of PIND is 1; the result does not depend on any other bit of PIND. -/
theorem getButton1_active_low (PIND : Nat) :
    (getButton1 PIND = 1 ↔ PIND.testBit 4 = false) ∧
    (getButton1 PIND = 0 ↔ PIND.testBit 4 = true) ∧
    (∀ other : Nat, other.testBit 4 = PIND.testBit 4 → getButton1 other = getButton1 PIND) := by
  have key : ∀ x : Nat, getButton1 x = if x.testBit 4 = false then 1 else 0 := by
    intro x
    unfold getButton1
    by_cases h : x.testBit 4 = false
    · rw [if_pos ((gbi_eq_zero_iff x 4 (by omega)).2 h), if_pos h]
    · rw [if_neg (fun hz => h ((gbi_eq_zero_iff x 4 (by omega)).1 hz)), if_neg h]
  refine ⟨?_, ?_, fun other ho => ?_⟩
  · rw [key]; cases PIND.testBit 4 <;> simp
  · rw [key]; cases PIND.testBit 4 <;> simp
  · rw [key, key, ho]

/-- C17: with each `getButton1()` poll consuming the next sample of a sequence of PIND values,
`buttonWait()` returns on a sample sequence exactly when the samples it consumed are zero or more
not-pressed samples `a`, one pressed sample `p`, zero or more pressed samples `b` and one
not-pressed sample `q`; its events are then the polls of `a` and `p`, `delayMs(30)`, the polls of
`b` and `q`, `delayMs(30)`: two delays, one right after the first pressed sample and one right
after the final not-pressed sample. So it never returns without having observed the button
pressed and afterwards released. -/
theorem buttonWait_observes_press_then_release (samples : List Nat) (tr : List Event)
    (rest : List Nat) :
    (buttonWait samples = some (tr, rest) ↔
      ∃ a p b q, (∀ x ∈ a, getButton1 x = 0) ∧ getButton1 p = 1 ∧
        (∀ x ∈ b, getButton1 x = 1) ∧ getButton1 q = 0 ∧
        samples = a ++ [p] ++ b ++ [q] ++ rest ∧
        tr = a.map Event.poll ++ [Event.poll p, Event.delayMs 30] ++
             b.map Event.poll ++ [Event.poll q, Event.delayMs 30]) ∧
    (buttonWait samples = some (tr, rest) →
      tr.count (Event.delayMs 30) = 2 ∧ ∀ e ∈ tr, ∀ num, e = Event.delayMs num → num = 30) := by
  have ne0 : ∀ x, getButton1 x ≠ 0 ↔ getButton1 x = 1 := fun x => by
    rcases getButton1_zero_or_one x with h | h <;> simp [h]
  have shape : buttonWait samples = some (tr, rest) ↔
      ∃ a p b q, (∀ x ∈ a, getButton1 x = 0) ∧ getButton1 p = 1 ∧
        (∀ x ∈ b, getButton1 x = 1) ∧ getButton1 q = 0 ∧
        samples = a ++ [p] ++ b ++ [q] ++ rest ∧
        tr = a.map Event.poll ++ [Event.poll p, Event.delayMs 30] ++
             b.map Event.poll ++ [Event.poll q, Event.delayMs 30] := by
    constructor
    · intro h
      unfold buttonWait at h
      cases h1 : pollWhile (fun b => b == 0) samples with
      | none => rw [h1] at h; simp at h
      | some r1 =>
        obtain ⟨tr1, rest1⟩ := r1
        rw [h1] at h
        simp only at h
        cases h2 : pollWhile (fun b => b != 0) rest1 with
        | none => rw [h2] at h; simp at h
        | some r2 =>
          obtain ⟨tr2, rest2⟩ := r2
          rw [h2] at h
          simp only [Option.some.injEq, Prod.mk.injEq] at h
          obtain ⟨ht, hr⟩ := h
          subst hr
          obtain ⟨a, p, ha, hp, hs1, ht1⟩ := (pollWhile_eq_some_iff _ _ _ _).1 h1
          obtain ⟨b, q, hb, hq, hs2, ht2⟩ := (pollWhile_eq_some_iff _ _ _ _).1 h2
          refine ⟨a, p, b, q, ?_, ?_, ?_, ?_, ?_, ?_⟩
          · intro x hx; simpa using ha x hx
          · have : getButton1 p ≠ 0 := by simpa using hp
            exact (ne0 p).1 this
          · intro x hx
            have : getButton1 x ≠ 0 := by simpa using hb x hx
            exact (ne0 x).1 this
          · simpa using hq
          · rw [hs1, hs2]; simp
          · rw [← ht, ht1, ht2]; simp
    · rintro ⟨a, p, b, q, ha, hp, hb, hq, hs, ht⟩
      have h1 : pollWhile (fun b => b == 0) samples
          = some (a.map Event.poll ++ [Event.poll p], b ++ q :: rest) := by
        rw [pollWhile_eq_some_iff]
        refine ⟨a, p, ?_, ?_, ?_, rfl⟩
        · intro x hx; simpa using ha x hx
        · simp [hp]
        · rw [hs]; simp
      have h2 : pollWhile (fun b => b != 0) (b ++ q :: rest)
          = some (b.map Event.poll ++ [Event.poll q], rest) := by
        rw [pollWhile_eq_some_iff]
        refine ⟨b, q, ?_, ?_, rfl, rfl⟩
        · intro x hx; simp [hb x hx]
        · simp [hq]
      unfold buttonWait
      rw [h1]
      simp only [h2, ht]
      simp
  refine ⟨shape, fun h => ?_⟩
  obtain ⟨a, p, b, q, -, -, -, -, -, ht⟩ := shape.1 h
  subst ht
  have cnt : ∀ l : List Nat, (l.map Event.poll).count (Event.delayMs 30) = 0 := by
    intro l
    rw [List.count_eq_zero]
    intro hm
    obtain ⟨x, -, hx⟩ := List.mem_map.1 hm
    cases hx
  constructor
  · simp [List.count_append, cnt, List.count_cons]
  · intro e he num hnum
    subst hnum
    simp at he
    omega

theorem buttonWait_observes_press_then_release_witness :
    buttonWait [0x10, 0x00, 0x0F, 0x10, 0x00]
      = some ([Event.poll 0x10, Event.poll 0x00, Event.delayMs 30, Event.poll 0x0F,
               Event.poll 0x10, Event.delayMs 30], [0x00]) :=
  (buttonWait_observes_press_then_release [0x10, 0x00, 0x0F, 0x10, 0x00] _ [0x00]).1.2
    ⟨[0x10], 0x00, [0x0F], 0x10, by decide, by decide, by decide, by decide, rfl, rfl⟩

/-- C18: for every starting board state and every mask `m`, `digitalOutputs(m)` leaves PORTA
and PORTB, and every other register, in the same state as the ten sequential single-line writes
`digitalOutput(n, bit n of m)` for `n = 0..9` from the same starting state. -/
theorem digitalOutputs_eq_sequentialOutputs (s : State) (m : Nat) :
    digitalOutputs s m = sequentialOutputs s m := by
  obtain ⟨qA, qB, qIA, qIB, qPA, qPB⟩ := sequentialOutputs_spec s m
  apply State.ext
  · rw [qA]; rfl
  · rw [qB]; rfl
  · apply Nat.eq_of_testBit_eq
    intro k
    have e : (digitalOutputs s m).PORTA = (m >>> 2) % 256 := rfl
    rw [qPA, e, testBit_mod_256, Nat.testBit_shiftRight, Nat.add_comm]
  · apply Nat.eq_of_testBit_eq
    intro k
    rw [qPB, digitalOutputs_PORTB]
  · rw [qIA]; rfl
  · rw [qIB]; rfl

/-- C19: lines do not interfere. For a line `n` in 0..9, every direction `d` and every board
state (8-bit registers), `digitalDirection(n, d)` changes no bit of DDRA, DDRB, PORTA or PORTB
other than the direction bit and the pull-up/drive bit of line `n`; in particular the direction
and pull-up bits of every other line `j` in 0..9 and the DDRB/PORTB bits 0, 1, 2, 3, 5, 6, which
belong to no digital line, are unchanged. -/
theorem digitalDirection_lines_do_not_interfere (s : State) (n : Nat) (d : Direction)
    (hn : n < 10) (h8 : eightBit s) :
    (n = 0 →
      (digitalDirection s n d).DDRA = s.DDRA ∧ (digitalDirection s n d).PORTA = s.PORTA ∧
      (∀ k, k ≠ 4 →
        (digitalDirection s n d).DDRB.testBit k = s.DDRB.testBit k ∧
        (digitalDirection s n d).PORTB.testBit k = s.PORTB.testBit k)) ∧
    (n = 1 →
      (digitalDirection s n d).DDRA = s.DDRA ∧ (digitalDirection s n d).PORTA = s.PORTA ∧
      (∀ k, k ≠ 7 →
        (digitalDirection s n d).DDRB.testBit k = s.DDRB.testBit k ∧
        (digitalDirection s n d).PORTB.testBit k = s.PORTB.testBit k)) ∧
    (2 ≤ n →
      (digitalDirection s n d).DDRB = s.DDRB ∧ (digitalDirection s n d).PORTB = s.PORTB ∧
      (∀ k, k ≠ n - 2 →
        (digitalDirection s n d).DDRA.testBit k = s.DDRA.testBit k ∧
        (digitalDirection s n d).PORTA.testBit k = s.PORTA.testBit k)) ∧
    (∀ j, j ≤ 9 → j ≠ n →
      lineBit (digitalDirection s n d).DDRA (digitalDirection s n d).DDRB j
        = lineBit s.DDRA s.DDRB j ∧
      lineBit (digitalDirection s n d).PORTA (digitalDirection s n d).PORTB j
        = lineBit s.PORTA s.PORTB j) ∧
    (∀ k, k ∈ [0, 1, 2, 3, 5, 6] →
      (digitalDirection s n d).DDRB.testBit k = s.DDRB.testBit k ∧
      (digitalDirection s n d).PORTB.testBit k = s.PORTB.testBit k) := by
  obtain ⟨hDA, hDB, hPA, hPB, -, -⟩ := h8
  have c0 : n = 0 → _ := fun h =>
    digitalDirection_groupB_frame s n 4 d (Or.inl ⟨h, rfl⟩) hDB hPB
  have c1 : n = 1 → _ := fun h =>
    digitalDirection_groupB_frame s n 7 d (Or.inr ⟨h, rfl⟩) hDB hPB
  have c2 : 2 ≤ n → _ := fun h =>
    digitalDirection_groupA_frame s n d h (by omega) hDA hPA
  refine ⟨c0, c1, c2, fun j hj hjn => ?_, fun k hk => ?_⟩
  · unfold lineBit
    by_cases h0 : n = 0
    · obtain ⟨eA, ePA, eB⟩ := c0 h0
      rw [eA, ePA]
      by_cases j0 : j = 0
      · omega
      · by_cases j1 : j = 1
        · subst j1
          simpa using eB 7 (by omega)
        · simp [j0, j1]
    · by_cases h1 : n = 1
      · obtain ⟨eA, ePA, eB⟩ := c1 h1
        rw [eA, ePA]
        by_cases j0 : j = 0
        · subst j0
          simpa using eB 4 (by omega)
        · by_cases j1 : j = 1
          · omega
          · simp [j0, j1]
      · obtain ⟨eB, ePB, eA⟩ := c2 (by omega)
        rw [eB, ePB]
        by_cases j0 : j = 0
        · simp [j0]
        · by_cases j1 : j = 1
          · simp [j1]
          · simpa [j0, j1] using eA (j - 2) (by omega)
  · have k4 : k ≠ 4 := by rintro rfl; simp at hk
    have k7 : k ≠ 7 := by rintro rfl; simp at hk
    by_cases h0 : n = 0
    · exact (c0 h0).2.2 k k4
    · by_cases h1 : n = 1
      · exact (c1 h1).2.2 k k7
      · obtain ⟨eB, ePB, -⟩ := c2 (by omega)
        rw [eB, ePB]
        exact ⟨rfl, rfl⟩

theorem digitalDirection_lines_do_not_interfere_witness :
    4 < 10 ∧ eightBit { DDRA := 0x0F, DDRB := 0x90, PORTA := 0xF5, PORTB := 0x6F } ∧
    (digitalDirection { DDRA := 0x0F, DDRB := 0x90, PORTA := 0xF5, PORTB := 0x6F } 4 .INPUT).DDRB
      = 0x90 ∧
    (digitalDirection { DDRA := 0x0F, DDRB := 0x90, PORTA := 0xF5, PORTB := 0x6F } 4 .INPUT).PORTB
      = 0x6F ∧
    (digitalDirection { DDRA := 0x0F, DDRB := 0x90, PORTA := 0xF5, PORTB := 0x6F } 4
      .INPUT).PORTA.testBit 0
      = Nat.testBit 0xF5 0 :=
  have h := digitalDirection_lines_do_not_interfere
    { DDRA := 0x0F, DDRB := 0x90, PORTA := 0xF5, PORTB := 0x6F } 4 .INPUT (by decide) (by decide)
  ⟨by decide, by decide, (h.2.2.1 (by decide)).1, (h.2.2.1 (by decide)).2.1,
   ((h.2.2.1 (by decide)).2.2 0 (by decide)).2⟩

/-- C20: an out-of-range line number is ignored. For a line number `n` with `10 ≤ n ≤ 15`,
every value `v`, every direction `d` and every board state (8-bit registers),
`digitalOutput(n, v)` and `digitalDirection(n, d)` leave DDRA, DDRB, PORTA and PORTB (the whole
state) unchanged and `digitalInput(n)` returns 0: `n > 1` selects the group A branch with bit
index `n - 2 ≥ 8`, outside the 8-bit register. -/
theorem out_of_range_line_is_ignored (s : State) (n v : Nat) (d : Direction)
    (h10 : 10 ≤ n) (h15 : n ≤ 15) (h8 : eightBit s) :
    digitalOutput s n v = s ∧ digitalDirection s n d = s ∧ digitalInput s n = 0 := by
  obtain ⟨hDA, -, hPA, -, hIA, -⟩ := h8
  have hb : 8 ≤ n - 2 := by omega
  refine ⟨?_, ?_, ?_⟩
  · rw [digitalOutput_groupA s n v (by omega)]
    split_ifs
    · rw [sbi_out_of_range _ _ hPA hb]
    · rw [cbi_out_of_range _ _ hPA hb]
  · rw [digitalDirection_groupA s n d (by omega) (by omega)]
    cases d
    · simp only [cbi_out_of_range _ _ hDA hb, cbi_out_of_range _ _ hPA hb]
    · simp only [cbi_out_of_range _ _ hDA hb, sbi_out_of_range _ _ hPA hb]
    · simp only [sbi_out_of_range _ _ hDA hb]
  · have h1 : n > 1 := by omega
    unfold digitalInput
    rw [if_pos h1, gbis_eq _ _ (by omega), testBit_of_lt_256 _ _ hIA hb]
    rfl

theorem out_of_range_line_is_ignored_witness :
    10 ≤ 12 ∧ 12 ≤ 15 ∧
    digitalOutput { DDRA := 0xF0, PORTA := 0xFF, PINA := 0xFF } 12 1
      = { DDRA := 0xF0, PORTA := 0xFF, PINA := 0xFF } ∧
    digitalDirection { DDRA := 0xF0, PORTA := 0xFF, PINA := 0xFF } 12 .INPUT
      = { DDRA := 0xF0, PORTA := 0xFF, PINA := 0xFF } ∧
    digitalInput { DDRA := 0xF0, PORTA := 0xFF, PINA := 0xFF } 12 = 0 :=
  ⟨by decide, by decide,
   out_of_range_line_is_ignored { DDRA := 0xF0, PORTA := 0xFF, PINA := 0xFF } 12 1 .INPUT
     (by decide) (by decide) (by decide)⟩

end Xiphos
